import Mathlib

/-!
A verification development for the ScannerIndexer repository.

The definitions below are shallow embeddings of the Python source:
* `src/models/index_profile.py` — `IndexField`, `IndexProfile`
  (`generate_output_path`, `to_dict`/`from_dict`), `ProfileManager`;
* `src/ui/page_list_widget.py` — the page catalog
  (`assign_profile_to_selected`, `mark_source_as_processed`);
* `src/ui/main_window.py` — export job construction (`export_all_assigned`);
* `src/services/export_service.py` and `src/ui/workers.py` — export
  validation and the exporter run loop;
* `src/utils/file_utils.py` — `sanitize_filename`, `ensure_unique_filename`.

File-system effects (existence tests, directory creation, renames) are
modelled by explicit function parameters or by state fields, with renames
and saves assumed to succeed; Python `str.format` is modelled for plain
named `\x7bkey\x7d` fields (no conversion/format specs, no positional fields);
`pathlib` joins and component extraction are modelled for paths without
trailing slashes.
-/

namespace ScannerIndexer

/-! ### Python string primitives -/

/-- The characters Python `str.strip()` removes (ASCII whitespace). -/
def isPyWhitespace (c : Char) : Bool :=
  c = ' ' || c = '\t' || c = '\n' || c = '\x0d' || c = '\x0b' || c = '\x0c'

/-- Python `s.strip()`: remove leading and trailing whitespace. -/
def pyStrip (s : String) : String :=
  ⟨((s.data.dropWhile isPyWhitespace).reverse.dropWhile isPyWhitespace).reverse⟩

/-- Python `s.strip(chars)` for an explicit character set. -/
def pyStripChars (cs : List Char) (s : String) : String :=
  ⟨((s.data.dropWhile (cs.contains ·)).reverse.dropWhile (cs.contains ·)).reverse⟩

/-- Python `s.startswith(pre)` (also used for `str.endswith` via
`strEndsWith`); defined on the character lists so that it evaluates by
kernel reduction. -/
def strStartsWith (s pre : String) : Bool :=
  pre.data.isPrefixOf s.data

/-- Python `s.endswith(suf)`. -/
def strEndsWith (s suf : String) : Bool :=
  suf.data.isSuffixOf s.data

/-- Python `s.lower()` restricted to ASCII. -/
def pyLower (s : String) : String :=
  ⟨s.data.map Char.toLower⟩

/-- `str(Path(a) / b)`: `b` replaces `a` when absolute, else they are
joined with `/` (modelled for `a` without a trailing slash). -/
def pathJoin (a b : String) : String :=
  if strStartsWith b "/" then b else a ++ "/" ++ b

/-- `Path(p).name`: the last `/`-separated component (modelled for paths
without a trailing slash). -/
def pathName (p : String) : String :=
  ⟨(p.data.reverse.takeWhile (fun c => c ≠ '/')).reverse⟩

/-- The path `Path(p).parent / ("done-" + Path(p).name)` used by
`mark_source_as_processed`: everything before the name, then the prefixed
name. -/
def doneSourcePath (p : String) : String :=
  ⟨p.data.take (p.data.length - (pathName p).data.length) ++ ("done-" ++ pathName p).data⟩

/-! ### `FileUtils.sanitize_filename` (`src/utils/file_utils.py`) -/

/-- The characters matched by the pattern `[<>:"/\\|?*]` in
`sanitize_filename`. -/
def invalidFilenameChars : List Char := ['<', '>', ':', '"', '/', '\\', '|', '?', '*']

/-- The substitution `re.sub(r'[<>:"/\\|?*]', '_', filename)`: the pattern
is a character class, so it is a character map. -/
def replaceInvalidChars (filename : String) : String :=
  ⟨filename.data.map (fun c => if c ∈ invalidFilenameChars then '_' else c)⟩

/-- `FileUtils.sanitize_filename`: replace invalid characters with `_`,
strip leading/trailing dots and spaces, substitute `"untitled"` for an
empty result, and truncate to 100 characters. -/
def sanitize_filename (filename : String) : String :=
  let sanitized := replaceInvalidChars filename
  let sanitized := pyStripChars ['.', ' '] sanitized
  let sanitized := if sanitized = "" then "untitled" else sanitized
  if sanitized.length > 100 then ⟨sanitized.data.take 100⟩ else sanitized

/-! ### The substitution map of `IndexProfile.generate_output_path` -/

/-- A Python `dict` with string keys, as an association list where
assignment overwrites in place and absent keys are appended. -/
def dictInsert (m : List (String × String)) (k v : String) : List (String × String) :=
  if m.any (fun e => e.1 = k) then
    m.map (fun e => if e.1 = k then (e.1, v) else e)
  else m ++ [(k, v)]

/-- Python `dict.setdefault(k, v)`. -/
def dictSetdefault (m : List (String × String)) (k v : String) : List (String × String) :=
  if m.any (fun e => e.1 = k) then m else m ++ [(k, v)]

/-- Python `dict` lookup. -/
def dictLookup (m : List (String × String)) (k : String) : Option String :=
  (m.find? (fun e => e.1 = k)).map (fun e => e.2)

/-- Python `dict.get(k, d)`. -/
def dictGetD (m : List (String × String)) (k d : String) : String :=
  (dictLookup m k).getD d

/-! ### Python `str.format`, restricted to plain named fields -/

/-- The two `str.format` failures relevant here: `KeyError` (a field names
an absent key; caught by `generate_output_path`) and `ValueError`
(malformed braces; not caught). -/
inductive FmtError where
  | keyError
  | valueError
deriving Repr, DecidableEq

/-- One-character-at-a-time scanner behind `pyFormat`; the first list is
`none` in literal mode, `some tok` while a field name is being read
(accumulated in reverse). Empty and all-digit field names are Python's
auto-numbered/positional fields, whose failures (`IndexError`) are not
`KeyError` and are modelled as `valueError`. -/
def pyFormatAux (m : List (String × String)) : Option (List Char) → List Char → Except FmtError (List Char)
  | none, [] => .ok []
  | some _, [] => .error .valueError
  | none, '{' :: '{' :: rest => (pyFormatAux m none rest).map (fun t => '{' :: t)
  | none, '{' :: rest => pyFormatAux m (some []) rest
  | none, '}' :: '}' :: rest => (pyFormatAux m none rest).map (fun t => '}' :: t)
  | none, '}' :: _ => .error .valueError
  | none, c :: rest => (pyFormatAux m none rest).map (fun t => c :: t)
  | some tok, '}' :: rest =>
    if tok.isEmpty || tok.all Char.isDigit then .error .valueError
    else
      match dictLookup m ⟨tok.reverse⟩ with
      | some v => (pyFormatAux m none rest).map (fun t => v.data ++ t)
      | none => .error .keyError
  | some tok, c :: rest => pyFormatAux m (some (c :: tok)) rest

/-- `pattern.format(**m)` on a character list, modelling plain named
fields `\x7bkey\x7d` and the `\x7b\x7b`/`\x7d\x7d` escapes; conversion and
format specifications are not modelled (a field's whole content is taken
as the key). -/
def pyFormat (m : List (String × String)) (pattern : List Char) : Except FmtError (List Char) :=
  pyFormatAux m none pattern

/-! ### `IndexField` and `IndexProfile` (`src/models/index_profile.py`)

The embedding keeps every serialized attribute of the two dataclasses. -/

structure IndexField where
  name : String
  value : String := ""
  placeholder : String := ""
  required : Bool := false
  field_type : String := "text"
  options : List String := []
deriving Repr, DecidableEq

structure IndexProfile where
  name : String
  description : String := ""
  fields : List IndexField := []
  output_pattern : String := "\x7bfolder_name\x7d/\x7bfile_name\x7d"
  input_folder : String := ""
  output_folder : String := ""
deriving Repr, DecidableEq

/-- The key a field contributes to the substitution map:
`field.name.lower().replace(" ", "_")` (lowercasing modelled for ASCII;
replacing a one-character pattern is a character map). -/
def fieldKey (f : IndexField) : String :=
  ⟨(pyLower f.name).data.map (fun c => if c = ' ' then '_' else c)⟩

/-- The value a field contributes: `field.value.strip() or "unknown"`. -/
def fieldSubstValue (f : IndexField) : String :=
  if pyStrip f.value = "" then "unknown" else pyStrip f.value

/-- The `replacements` dict of `generate_output_path`: one entry per field,
then `setdefault` for `folder_name` and `file_name`. -/
def buildReplacements (fields : List IndexField) : List (String × String) :=
  let m := fields.foldl (fun m f => dictInsert m (fieldKey f) (fieldSubstValue f)) []
  dictSetdefault (dictSetdefault m "folder_name" "extracted") "file_name" "document"

/-- `IndexProfile.generate_output_path`: format the pattern over the
replacements; on `KeyError` fall back to
`base_dir/replacements.get("folder_name","extracted")/replacements.get("file_name","document")`;
`none` models an uncaught exception (`ValueError`). -/
def IndexProfile.generate_output_path (p : IndexProfile) (base_dir : String) : Option String :=
  let replacements := buildReplacements p.fields
  match pyFormat replacements p.output_pattern.data with
  | .ok rel => some (pathJoin base_dir ⟨rel⟩)
  | .error .keyError =>
      some (pathJoin (pathJoin base_dir (dictGetD replacements "folder_name" "extracted"))
        (dictGetD replacements "file_name" "document"))
  | .error .valueError => none

/-- Spec-side reading of the substitution map (§4.1 of the spec): for each
field, key = lowercased name with spaces replaced by underscores, value =
trimmed value or `"unknown"`; duplicate keys resolve to the last field;
`folder_name`/`file_name` default only when no field supplies them. -/
def replacementsSpec (fields : List IndexField) (k : String) : Option String :=
  match fields.reverse.find? (fun f => fieldKey f = k) with
  | some f => some (fieldSubstValue f)
  | none =>
      if k = "folder_name" then some "extracted"
      else if k = "file_name" then some "document"
      else none

/-! ### Lemmas about the substitution dictionary -/

theorem dictLookup_cons (e : String × String) (m : List (String × String)) (k : String) :
    dictLookup (e :: m) k = if e.1 = k then some e.2 else dictLookup m k := by
  simp only [dictLookup, List.find?]
  rcases h : decide (e.1 = k) with _ | _
  · simp_all
  · simp_all

theorem dictLookup_map_overwrite (m : List (String × String)) (k v k' : String) :
    dictLookup (m.map (fun e => if e.1 = k then (e.1, v) else e)) k'
      = if k' = k then (dictLookup m k).map (fun _ => v) else dictLookup m k' := by
  induction m with
  | nil => simp [dictLookup]
  | cons e m ih =>
    simp only [List.map_cons]
    by_cases hek : e.1 = k
    · by_cases hk' : k' = k
      · subst hk'; simp [hek, dictLookup_cons]
      · have hne : ¬ e.1 = k' := fun h => hk' (h.symm.trans hek)
        have hkk : ¬ k = k' := fun h => hk' h.symm
        simp [hek, hk', hne, hkk, dictLookup_cons, ih]
    · by_cases hk' : k' = k
      · subst hk'; simp [hek, dictLookup_cons, ih]
      · by_cases he' : e.1 = k'
        · simp [hek, hk', he', dictLookup_cons]
        · simp [hek, hk', he', dictLookup_cons, ih]

theorem dictLookup_append_single (m : List (String × String)) (k v k' : String) :
    dictLookup (m ++ [(k, v)]) k'
      = (dictLookup m k').orElse (fun _ => if k' = k then some v else none) := by
  induction m with
  | nil => by_cases h : k = k' <;> simp [dictLookup_cons, dictLookup, h, eq_comm]
  | cons e m ih =>
    by_cases he : e.1 = k'
    · simp [dictLookup_cons, he]
    · simp [dictLookup_cons, he, ih]

theorem dictLookup_isSome_of_any (m : List (String × String)) (k : String)
    (h : m.any (fun e => e.1 = k) = true) : (dictLookup m k).isSome := by
  induction m with
  | nil => simp at h
  | cons e m ih =>
    simp only [List.any_cons, Bool.or_eq_true, decide_eq_true_eq] at h
    rcases h with h | h
    · simp [dictLookup_cons, h]
    · by_cases he : e.1 = k <;> simp [dictLookup_cons, he, ih h]

theorem any_of_dictLookup_isSome (m : List (String × String)) (k : String)
    (h : (dictLookup m k).isSome) : m.any (fun e => e.1 = k) = true := by
  induction m with
  | nil => simp [dictLookup] at h
  | cons e m ih =>
    by_cases he : e.1 = k
    · simp [he]
    · simp only [dictLookup_cons, he, if_false] at h
      simp [ih h]

theorem dictLookup_insert (m : List (String × String)) (k v k' : String) :
    dictLookup (dictInsert m k v) k' = if k' = k then some v else dictLookup m k' := by
  unfold dictInsert
  by_cases hany : m.any (fun e => e.1 = k) = true
  · rw [if_pos hany, dictLookup_map_overwrite]
    by_cases hk : k' = k
    · have := dictLookup_isSome_of_any m k hany
      rcases hl : dictLookup m k with _ | w
      · rw [hl] at this; simp at this
      · simp [hk, hl]
    · simp [hk]
  · rw [if_neg hany, dictLookup_append_single]
    by_cases hk : k' = k
    · subst hk
      rcases hl : dictLookup m k' with _ | w
      · simp [hl]
      · exact absurd (any_of_dictLookup_isSome m k' (by simp [hl])) hany
    · simp [hk]

theorem dictLookup_setdefault (m : List (String × String)) (k v k' : String) :
    dictLookup (dictSetdefault m k v) k'
      = (dictLookup m k').orElse (fun _ => if k' = k then some v else none) := by
  unfold dictSetdefault
  by_cases hany : m.any (fun e => e.1 = k) = true
  · rw [if_pos hany]
    by_cases hk : k' = k
    · subst hk
      have := dictLookup_isSome_of_any m k' hany
      rcases hl : dictLookup m k' with _ | w
      · rw [hl] at this; simp at this
      · simp
    · rcases dictLookup m k' with _ | w <;> simp [hk]
  · rw [if_neg hany, dictLookup_append_single]

theorem dictLookup_foldl_fields (fields : List IndexField) (m : List (String × String)) (k : String) :
    dictLookup (fields.foldl (fun m f => dictInsert m (fieldKey f) (fieldSubstValue f)) m) k
      = match fields.reverse.find? (fun f => fieldKey f = k) with
        | some f => some (fieldSubstValue f)
        | none => dictLookup m k := by
  induction fields generalizing m with
  | nil => simp
  | cons f fs ih =>
    simp only [List.foldl_cons, List.reverse_cons, ih, List.find?_append]
    rcases hf : fs.reverse.find? (fun f => fieldKey f = k) with _ | g
    · simp only [hf, Option.none_or]
      by_cases hpk : fieldKey f = k
      · simp [List.find?, hpk, dictLookup_insert]
      · have hne : ¬ k = fieldKey f := fun h => hpk h.symm
        simp [List.find?, hpk, hne, dictLookup_insert]
    · simp [hf]

/-- The substitution map built by `generate_output_path` agrees with the
spec's description of it (`replacementsSpec`). -/
theorem buildReplacements_eq_spec (fields : List IndexField) (k : String) :
    dictLookup (buildReplacements fields) k = replacementsSpec fields k := by
  unfold buildReplacements replacementsSpec
  simp only [dictLookup_setdefault, dictLookup_foldl_fields]
  rcases fields.reverse.find? (fun f => fieldKey f = k) with _ | g
  · simp only [dictLookup]
    by_cases h1 : k = "folder_name"
    · simp [h1]
    · by_cases h2 : k = "file_name" <;> simp [h1, h2, List.find?]
  · simp

theorem buildReplacements_folder_isSome (fields : List IndexField) :
    ∃ v, dictLookup (buildReplacements fields) "folder_name" = some v := by
  rw [buildReplacements_eq_spec]
  unfold replacementsSpec
  rcases List.find? (fun f => fieldKey f = "folder_name") fields.reverse with _ | g
  · exact ⟨"extracted", rfl⟩
  · exact ⟨_, rfl⟩

theorem buildReplacements_file_isSome (fields : List IndexField) :
    ∃ v, dictLookup (buildReplacements fields) "file_name" = some v := by
  rw [buildReplacements_eq_spec]
  unfold replacementsSpec
  rcases List.find? (fun f => fieldKey f = "file_name") fields.reverse with _ | g
  · exact ⟨"document", rfl⟩
  · exact ⟨_, rfl⟩

/-! ### Claims C1 and C2: `generate_output_path` -/

/-- C1: for every pattern whose `\x7bkey\x7d` tokens all name keys present in
the substitution map (formatting succeeds with result `rel`),
`generate_output_path base_dir` returns `base_dir` joined with the pattern
in which every token has been replaced, and the substitution map is
exactly as the claim describes it: for each field, key = the field name
lowercased with spaces replaced by underscores and value = the trimmed
field value or `"unknown"` when blank, with `folder_name` defaulting to
`"extracted"` and `file_name` to `"document"` only when no field supplies
those keys (`replacementsSpec`). -/
theorem generate_output_path_resolved (p : IndexProfile) (base_dir : String) (rel : List Char)
    (h : pyFormat (buildReplacements p.fields) p.output_pattern.data = .ok rel) :
    p.generate_output_path base_dir = some (pathJoin base_dir ⟨rel⟩) ∧
    ∀ k, dictLookup (buildReplacements p.fields) k = replacementsSpec p.fields k := by
  refine ⟨?_, fun k => buildReplacements_eq_spec p.fields k⟩
  simp only [IndexProfile.generate_output_path, h]

/-- The spec §8 invoice example, used as a concrete input. -/
def invExampleProfile : IndexProfile :=
  { name := "Inv",
    fields := [{ name := "Vendor", value := "Acme" }, { name := "Year", value := "2024" }],
    output_pattern := "\x7bvendor\x7d/\x7byear\x7d" }

theorem generate_output_path_resolved_witness :
    invExampleProfile.generate_output_path "/out" = some (pathJoin "/out" ⟨"Acme/2024".data⟩) ∧
    ∀ k, dictLookup (buildReplacements invExampleProfile.fields) k
      = replacementsSpec invExampleProfile.fields k :=
  generate_output_path_resolved invExampleProfile "/out" "Acme/2024".data rfl

/-- C2: for every pattern that references a key absent from the
substitution map (formatting fails with `KeyError`),
`generate_output_path base_dir` still returns a value (the exception is
not propagated) and that value is `base_dir/folder_name/file_name` built
from the map's `folder_name` and `file_name` entries. -/
theorem generate_output_path_fallback (p : IndexProfile) (base_dir : String)
    (h : pyFormat (buildReplacements p.fields) p.output_pattern.data = .error .keyError) :
    ∃ folder file,
      dictLookup (buildReplacements p.fields) "folder_name" = some folder ∧
      dictLookup (buildReplacements p.fields) "file_name" = some file ∧
      p.generate_output_path base_dir = some (pathJoin (pathJoin base_dir folder) file) := by
  obtain ⟨folder, hfo⟩ := buildReplacements_folder_isSome p.fields
  obtain ⟨file, hfi⟩ := buildReplacements_file_isSome p.fields
  refine ⟨folder, file, hfo, hfi, ?_⟩
  simp only [IndexProfile.generate_output_path, h, dictGetD, hfo, hfi, Option.getD_some]

/-- A profile whose pattern names a key no field supplies. -/
def missingKeyProfile : IndexProfile :=
  { name := "M",
    fields := [{ name := "Vendor", value := "Acme" }],
    output_pattern := "\x7bvendor\x7d/\x7bmissing\x7d" }

theorem generate_output_path_fallback_witness :
    ∃ folder file,
      dictLookup (buildReplacements missingKeyProfile.fields) "folder_name" = some folder ∧
      dictLookup (buildReplacements missingKeyProfile.fields) "file_name" = some file ∧
      missingKeyProfile.generate_output_path "/out"
        = some (pathJoin (pathJoin "/out" folder) file) :=
  generate_output_path_fallback missingKeyProfile "/out" rfl

/-! ### Claim C3: `to_dict` / `from_dict` round trip -/

/-- The dictionary emitted for one field by `IndexProfile.to_dict`.
Attributes read back through `.get` with a default in `from_dict` are
`Option`s; `name` is accessed with `f['name']` and is mandatory. -/
structure FieldDict where
  name : String
  value : Option String
  placeholder : Option String
  required : Option Bool
  field_type : Option String
  options : Option (List String)
deriving Repr, DecidableEq

/-- The dictionary emitted by `IndexProfile.to_dict`. -/
structure ProfileDict where
  name : String
  description : Option String
  output_pattern : Option String
  input_folder : Option String
  output_folder : Option String
  fields : Option (List FieldDict)
deriving Repr, DecidableEq

/-- The per-field dictionary built inside `IndexProfile.to_dict`. -/
def fieldToDict (f : IndexField) : FieldDict :=
  { name := f.name, value := some f.value, placeholder := some f.placeholder,
    required := some f.required, field_type := some f.field_type, options := some f.options }

/-- The per-field parser inside `IndexProfile.from_dict`. -/
def fieldFromDict (d : FieldDict) : IndexField :=
  { name := d.name, value := d.value.getD "", placeholder := d.placeholder.getD "",
    required := d.required.getD false, field_type := d.field_type.getD "text",
    options := d.options.getD [] }

/-- `IndexProfile.to_dict`. -/
def IndexProfile.to_dict (p : IndexProfile) : ProfileDict :=
  { name := p.name, description := some p.description,
    output_pattern := some p.output_pattern, input_folder := some p.input_folder,
    output_folder := some p.output_folder, fields := some (p.fields.map fieldToDict) }

/-- `IndexProfile.from_dict`. -/
def IndexProfile.from_dict (d : ProfileDict) : IndexProfile :=
  { name := d.name, description := d.description.getD "",
    fields := (d.fields.getD []).map fieldFromDict,
    output_pattern := d.output_pattern.getD "\x7bfolder_name\x7d/\x7bfile_name\x7d",
    input_folder := d.input_folder.getD "", output_folder := d.output_folder.getD "" }

theorem fieldFromDict_fieldToDict (f : IndexField) : fieldFromDict (fieldToDict f) = f := by
  cases f; rfl

/-- C3: serialization and deserialization are mutually inverse:
`from_dict (to_dict p) = p` for every profile, losslessly for every
attribute of `IndexProfile` and of each `IndexField`. -/
theorem from_dict_to_dict (p : IndexProfile) : IndexProfile.from_dict p.to_dict = p := by
  have hcomp : fieldFromDict ∘ fieldToDict = id := funext fieldFromDict_fieldToDict
  cases p with
  | mk name description fields output_pattern input_folder output_folder =>
    simp [IndexProfile.from_dict, IndexProfile.to_dict, List.map_map, hcomp]

/-! ### Claim C10: `sanitize_filename` -/

theorem replaceInvalidChars_no_invalid (s : String) :
    ∀ c ∈ (replaceInvalidChars s).data, c ∉ invalidFilenameChars := by
  intro c hc
  simp only [replaceInvalidChars, List.mem_map] at hc
  obtain ⟨a, _, rfl⟩ := hc
  by_cases h : a ∈ invalidFilenameChars
  · simp only [h, if_pos]; decide
  · simp only [h, if_neg, if_false]
    exact not_false

theorem pyStripChars_sublist (cs : List Char) (s : String) :
    (pyStripChars cs s).data.Sublist s.data := by
  unfold pyStripChars
  have h1 : ((s.data.dropWhile (cs.contains ·)).reverse.dropWhile (cs.contains ·)).Sublist
      (s.data.dropWhile (cs.contains ·)).reverse := List.dropWhile_sublist _
  have h2 := h1.reverse
  simp only [List.reverse_reverse] at h2
  exact h2.trans (List.dropWhile_sublist _)

/-- C10: for every input, `sanitize_filename` returns a non-empty string
of at most 100 characters containing none of `< > : " / \ | ? *`; and when
replacement followed by stripping of dots and spaces leaves nothing, the
result is the literal `"untitled"`. -/
theorem sanitize_filename_spec (s : String) :
    sanitize_filename s ≠ "" ∧
    (sanitize_filename s).length ≤ 100 ∧
    (∀ c ∈ (sanitize_filename s).data, c ∉ invalidFilenameChars) ∧
    (pyStripChars ['.', ' '] (replaceInvalidChars s) = "" → sanitize_filename s = "untitled") := by
  unfold sanitize_filename
  by_cases hempty : pyStripChars ['.', ' '] (replaceInvalidChars s) = ""
  · simp only [hempty, if_pos]
    refine ⟨by decide, by decide, by decide, fun _ => by decide⟩
  · simp only [hempty, Bool.false_eq_true, if_neg, if_false]
    set mid := pyStripChars ['.', ' '] (replaceInvalidChars s) with hmid
    have hchars : ∀ c ∈ mid.data, c ∉ invalidFilenameChars := by
      intro c hc
      exact replaceInvalidChars_no_invalid s c ((pyStripChars_sublist _ _).subset hc)
    have hne : mid.data ≠ [] := by
      intro h
      exact hempty (by rw [hmid] at h ⊢; exact String.ext h)
    by_cases hlen : mid.length > 100
    · rw [if_pos hlen]
      refine ⟨?_, ?_, ?_, fun h => h.elim⟩

      · intro h
        have := congrArg String.data h
        simp only [String.length] at hlen
        simp only [List.take_eq_nil_iff] at this
        rcases this with h' | h'
        · exact absurd h' (by omega)
        · exact hne h'
      · simp only [String.length, List.length_take]
        omega
      · intro c hc
        exact hchars c (List.take_subset _ _ hc)
    · rw [if_neg hlen]
      refine ⟨?_, by omega, hchars, fun h => h.elim⟩
      intro h
      exact hne (congrArg String.data h)

theorem sanitize_filename_spec_witness :
    pyStripChars ['.', ' '] (replaceInvalidChars " .. ") = "" ∧
    sanitize_filename " .. " = "untitled" :=
  ⟨rfl, (sanitize_filename_spec " .. ").2.2.2 rfl⟩

/-! ### `ProfileManager` (`src/models/index_profile.py`)

The profiles file is modelled as already-parsed content; `save_profiles`
(whose own failure is only printed) is modelled as succeeding, recorded in
`file` and counted in `saves`. -/

/-- The three states `load_profiles` distinguishes for the profiles file:
absent, unreadable/unparsable, or a parsed list. -/
inductive ProfilesFile where
  | missing
  | corrupt
  | data (profiles : List IndexProfile)
deriving Repr, DecidableEq

structure ProfileManagerState where
  profiles : List IndexProfile
  file : ProfilesFile
  saves : Nat
deriving Repr, DecidableEq

/-- `ProfileManager.save_profiles`. -/
def save_profiles (st : ProfileManagerState) : ProfileManagerState :=
  { st with file := .data st.profiles, saves := st.saves + 1 }

/-- The three seeded profiles of `ProfileManager.create_default_profiles`
(fields added through `add_field`, i.e. in order). -/
def default_profiles : List IndexProfile :=
  [{ name := "Basic Document", description := "Simple document indexing",
     output_pattern := "\x7bdocument_type\x7d/\x7bfile_name\x7d",
     fields := [{ name := "Document Type", placeholder := "e.g., contracts, invoices" },
                { name := "File Name", placeholder := "Output filename", required := true }] },
   { name := "Invoice Processing", description := "For processing invoices",
     output_pattern := "\x7bvendor\x7d/\x7byear\x7d/\x7bmonth\x7d/\x7binvoice_number\x7d",
     fields := [{ name := "Vendor", placeholder := "Vendor name", required := true },
                { name := "Invoice Number", placeholder := "Invoice #", required := true },
                { name := "Year", placeholder := "2024", required := true },
                { name := "Month", placeholder := "01-12", required := true }] },
   { name := "Contract Management", description := "For organizing contracts",
     output_pattern := "\x7bcontract_type\x7d/\x7bclient\x7d/\x7bfile_name\x7d",
     fields := [{ name := "Contract Type", value := "Service Agreement", placeholder := "Contract type" },
                { name := "Client", placeholder := "Client name", required := true },
                { name := "File Name", placeholder := "Contract filename", required := true }] }]

/-- `ProfileManager.create_default_profiles`: extend with the defaults and
save. -/
def create_default_profiles (st : ProfileManagerState) : ProfileManagerState :=
  save_profiles { st with profiles := st.profiles ++ default_profiles }

/-- `ProfileManager.load_profiles` as called from `__init__` (where
`self.profiles` starts `[]`): read the file if it exists (a parse error
leaves `[]`), then seed defaults when the list is empty. -/
def load_profiles (file : ProfilesFile) : ProfileManagerState :=
  let loaded : List IndexProfile :=
    match file with
    | .missing => []
    | .corrupt => []
    | .data l => l
  let st : ProfileManagerState := { profiles := loaded, file := file, saves := 0 }
  if st.profiles.isEmpty then create_default_profiles st else st

/-- `ProfileManager.add_profile`: append, then save. -/
def add_profile (st : ProfileManagerState) (p : IndexProfile) : ProfileManagerState :=
  save_profiles { st with profiles := st.profiles ++ [p] }

/-- `ProfileManager.remove_profile`: drop every profile with the name;
save and return `True` only when the list shrank. -/
def remove_profile (st : ProfileManagerState) (profile_name : String) :
    ProfileManagerState × Bool :=
  if (st.profiles.filter (fun p => p.name ≠ profile_name)).length < st.profiles.length then
    (save_profiles { st with profiles := st.profiles.filter (fun p => p.name ≠ profile_name) }, true)
  else (st, false)

/-- `ProfileManager.get_profile`: first match by name. -/
def get_profile (st : List IndexProfile) (name : String) : Option IndexProfile :=
  st.find? (fun p => p.name = name)

theorem length_filter_ne_lt_iff (l : List IndexProfile) (n : String) :
    (l.filter (fun p => p.name ≠ n)).length < l.length ↔ l.any (fun p => p.name = n) = true := by
  constructor
  · intro h
    by_contra hany
    have hall : ∀ p ∈ l, ¬ p.name = n := by
      intro p hp hpn
      exact hany (List.any_eq_true.mpr ⟨p, hp, by simp [hpn]⟩)
    have heq : l.filter (fun p => p.name ≠ n) = l :=
      List.filter_eq_self.mpr (fun p hp => by simpa using hall p hp)
    rw [heq] at h
    omega
  · intro h
    rcases List.any_eq_true.mp h with ⟨p, hp, hpn⟩
    simp only [decide_eq_true_eq] at hpn
    exact List.length_filter_lt_length_iff_exists.mpr ⟨p, hp, by simp [hpn]⟩

/-- Branch characterization of `remove_profile`, shared by the claims
about the profile store. -/
theorem remove_profile_eq (st : ProfileManagerState) (n : String) :
    remove_profile st n
      = if st.profiles.any (fun p => p.name = n) then
          (save_profiles { st with profiles := st.profiles.filter (fun p => p.name ≠ n) }, true)
        else (st, false) := by
  unfold remove_profile
  by_cases hc : st.profiles.any (fun p => p.name = n) = true
  · rw [if_pos ((length_filter_ne_lt_iff _ _).mpr hc), if_pos hc]
  · rw [if_neg (fun h => hc ((length_filter_ne_lt_iff _ _).mp h)), if_neg hc]

/-! ### Claim C8: default seeding and persist-on-mutation -/

/-- C8: loading from a missing file, a corrupt file, or a file holding an
empty list seeds the fixed default profiles — which include "Basic
Document" and "Invoice Processing" — and persists them to disk at once;
and every `add_profile` and every (successful) `remove_profile` persists
the full store immediately, so the file always matches the in-memory
list. -/
theorem profile_store_persistence :
    (∀ file, (file = .missing ∨ file = .corrupt ∨ file = .data []) →
      (load_profiles file).profiles = default_profiles ∧
      (load_profiles file).file = .data default_profiles ∧
      (load_profiles file).saves = 1) ∧
    "Basic Document" ∈ default_profiles.map (fun p => p.name) ∧
    "Invoice Processing" ∈ default_profiles.map (fun p => p.name) ∧
    (∀ st p, (add_profile st p).profiles = st.profiles ++ [p] ∧
      (add_profile st p).file = .data (st.profiles ++ [p]) ∧
      (add_profile st p).saves = st.saves + 1) ∧
    (∀ st n, (remove_profile st n).2 = true →
      (remove_profile st n).1.file = .data (remove_profile st n).1.profiles ∧
      (remove_profile st n).1.saves = st.saves + 1) := by
  refine ⟨?_, by decide, by decide, ?_, ?_⟩
  · rintro file (rfl | rfl | rfl) <;> exact ⟨rfl, rfl, rfl⟩
  · intro st p
    exact ⟨rfl, rfl, rfl⟩
  · intro st n h
    rw [remove_profile_eq] at h ⊢
    by_cases hc : st.profiles.any (fun p => p.name = n) = true
    · simp [hc, save_profiles]
    · simp [hc] at h

theorem profile_store_persistence_witness :
    (load_profiles .missing).profiles = default_profiles ∧
    (remove_profile { profiles := default_profiles, file := .data default_profiles, saves := 1 }
        "Basic Document").2 = true ∧
    (remove_profile { profiles := default_profiles, file := .data default_profiles, saves := 1 }
        "Basic Document").1.saves = 2 :=
  ⟨(profile_store_persistence.1 .missing (Or.inl rfl)).1, by decide,
    (profile_store_persistence.2.2.2.2
      { profiles := default_profiles, file := .data default_profiles, saves := 1 }
      "Basic Document" (by decide)).2⟩

/-! ### Claim C9: `remove_profile` semantics -/

/-- C9: `remove_profile` removes every profile carrying the given name
(not only the first match) and returns `True` exactly when at least one
existed; a `False` return leaves the whole state (list, file and save
count) untouched, so no persist happens. -/
theorem remove_profile_spec (st : ProfileManagerState) (n : String) :
    (remove_profile st n)
      = (if st.profiles.any (fun p => p.name = n) then
          (save_profiles { st with profiles := st.profiles.filter (fun p => p.name ≠ n) }, true)
         else (st, false)) ∧
    ((remove_profile st n).2 = true ↔ ∃ p ∈ st.profiles, p.name = n) := by
  refine ⟨remove_profile_eq st n, ?_⟩
  rw [remove_profile_eq]
  by_cases hc : st.profiles.any (fun p => p.name = n) = true
  · simp only [hc, if_true]
    refine ⟨fun _ => ?_, fun _ => trivial⟩
    rcases List.any_eq_true.mp hc with ⟨p, hp, hpn⟩
    exact ⟨p, hp, by simpa using hpn⟩
  · simp only [hc, if_false, Bool.false_eq_true, false_iff]
    rintro ⟨p, hp, hpn⟩
    exact hc (List.any_eq_true.mpr ⟨p, hp, by simp [hpn]⟩)

/-! ### `PDFPageData` and `ExportJob` (`src/models/pdf_page.py`)

The embedding keeps the attributes the verified code paths read or write
(`source_path`, `page_number`, `selected`, `assigned_profile`, and for
jobs the `pages_group` attached in `export_all_assigned`); the display
attributes (`folder_name`, `filename`, `custom_tag`, `batch_id`,
`profile_field_values`) are carried nowhere in those paths and are
omitted. -/

structure PDFPageData where
  source_path : String
  page_number : Nat
  selected : Bool := false
  assigned_profile : Option String := none
deriving Repr, DecidableEq

structure ExportJob where
  source_path : String
  page_number : Nat
  output_path : String
  pages_group : List PDFPageData := []
deriving Repr, DecidableEq

/-! ### Claim C7: export validation gates the run
(`src/services/export_service.py`, `src/ui/workers.py`) -/

/-- `ExportService.validate_export_jobs`: walk every job in order,
collecting an error line for a missing source file and one for an
uncreatable output directory. `srcExists` models `Path(...).exists()`,
`mkdirOk` the `mkdir(parents=True, exist_ok=True)` probe on the job's
output path (the OS-exception text of the second message is not
modelled); `i` is the running `enumerate` index. -/
def validate_export_jobs (srcExists mkdirOk : String → Bool) : List ExportJob → Nat → List String
  | [], _ => []
  | job :: rest, i =>
    (if srcExists job.source_path = false
      then [s!"Job {i + 1}: Source file not found: {job.source_path}"] else [])
    ++ (if mkdirOk job.output_path = false
      then [s!"Job {i + 1}: Cannot create output directory"] else [])
    ++ validate_export_jobs srcExists mkdirOk rest (i + 1)

/-- The observable outcome of `PDFExporter.run`: the error emitted when
validation fails, and the jobs on which `export_page` was invoked. -/
structure ExporterRun where
  errorMsg : Option String
  executed : List ExportJob
deriving Repr, DecidableEq

/-- `PDFExporter.run`: validate all jobs first; on any validation error
emit a single failure message and run no job, otherwise export every job
in order (cancellation is not modelled: `_stop_requested` stays false). -/
def pdfExporterRun (srcExists mkdirOk : String → Bool) (jobs : List ExportJob) : ExporterRun :=
  let errors := validate_export_jobs srcExists mkdirOk jobs 0
  if errors.isEmpty then { errorMsg := none, executed := jobs }
  else
    { errorMsg := some ("Export validation failed:\n" ++ String.intercalate "\n" errors),
      executed := [] }

theorem validate_export_jobs_mem (srcExists mkdirOk : String → Bool) :
    ∀ (jobs : List ExportJob) (n i : Nat) (job : ExportJob),
      jobs.get? i = some job → srcExists job.source_path = false →
      s!"Job {n + i + 1}: Source file not found: {job.source_path}"
        ∈ validate_export_jobs srcExists mkdirOk jobs n := by
  intro jobs
  induction jobs with
  | nil => intro n i job h; simp at h
  | cons j rest ih =>
    intro n i job hget hsrc
    match i with
    | 0 =>
      simp only [List.get?_cons_zero, Option.some_inj] at hget
      subst hget
      simp only [validate_export_jobs, hsrc, if_pos, Nat.add_zero]
      simp
    | i + 1 =>
      simp only [List.get?_cons_succ] at hget
      have := ih (n + 1) i job hget hsrc
      have harith : n + 1 + i + 1 = n + (i + 1) + 1 := by omega
      rw [harith] at this
      simp only [validate_export_jobs]
      exact List.mem_append_right _ this

/-- C7: validation visits every job and collects every error before any
export I/O — a job with a missing source always contributes its error
line, and any validation error prevents every job from running; in the
three-job scenario where only the second job's source is missing,
validation reports exactly one error, naming job 2, and no job is
executed. -/
theorem export_validation_gates_run (srcExists mkdirOk : String → Bool) :
    (∀ (jobs : List ExportJob) (i : Nat) (job : ExportJob),
      jobs.get? i = some job → srcExists job.source_path = false →
      s!"Job {i + 1}: Source file not found: {job.source_path}"
        ∈ validate_export_jobs srcExists mkdirOk jobs 0) ∧
    (∀ jobs, validate_export_jobs srcExists mkdirOk jobs 0 ≠ [] →
      (pdfExporterRun srcExists mkdirOk jobs).executed = []) ∧
    (∀ j1 j2 j3 : ExportJob,
      srcExists j1.source_path = true → srcExists j2.source_path = false →
      srcExists j3.source_path = true → (∀ s, mkdirOk s = true) →
      validate_export_jobs srcExists mkdirOk [j1, j2, j3] 0
        = [s!"Job 2: Source file not found: {j2.source_path}"] ∧
      (pdfExporterRun srcExists mkdirOk [j1, j2, j3]).executed = []) := by
  refine ⟨?_, ?_, ?_⟩
  · intro jobs i job hget hsrc
    have := validate_export_jobs_mem srcExists mkdirOk jobs 0 i job hget hsrc
    simpa using this
  · intro jobs herr
    unfold pdfExporterRun
    rw [if_neg (by simpa [List.isEmpty_iff] using herr)]
  · intro j1 j2 j3 h1 h2 h3 hmk
    have hval : validate_export_jobs srcExists mkdirOk [j1, j2, j3] 0
        = [s!"Job 2: Source file not found: {j2.source_path}"] := by
      simp [validate_export_jobs, h1, h2, h3, hmk]
      rfl
    refine ⟨hval, ?_⟩
    unfold pdfExporterRun
    rw [hval]
    simp

/-- Concrete jobs for the C7 scenario: only the second source is absent
from the modelled file system. -/
def c7Job1 : ExportJob := { source_path := "a.pdf", page_number := 0, output_path := "out/a.pdf" }

def c7Job2 : ExportJob := { source_path := "b.pdf", page_number := 1, output_path := "out/b.pdf" }

def c7Job3 : ExportJob := { source_path := "c.pdf", page_number := 2, output_path := "out/c.pdf" }

theorem export_validation_gates_run_witness :
    validate_export_jobs (fun s => !(s == "b.pdf")) (fun _ => true) [c7Job1, c7Job2, c7Job3] 0
      = [s!"Job 2: Source file not found: {c7Job2.source_path}"] ∧
    (pdfExporterRun (fun s => !(s == "b.pdf")) (fun _ => true) [c7Job1, c7Job2, c7Job3]).executed
      = [] :=
  (export_validation_gates_run (fun s => !(s == "b.pdf")) (fun _ => true)).2.2
    c7Job1 c7Job2 c7Job3 rfl rfl rfl (fun _ => rfl)

/-! ### Claim C6: export job construction (`src/ui/main_window.py`) -/

/-- Python truthiness of `page_data.assigned_profile` as used by the
`pages_to_export` filter (`None` and `""` are falsy). -/
def pyTruthy : Option String → Bool
  | none => false
  | some s => s ≠ ""

/-- `Path(filepath).suffix` of a file name: from the last dot, provided it
is neither the first nor the last character. -/
def pathSuffix (name : List Char) : List Char :=
  let tail := name.reverse.takeWhile (fun c => c ≠ '.')
  if tail.length = name.length then []
  else if 0 < name.length - tail.length - 1 ∧ tail.length > 0 then
    name.drop (name.length - tail.length - 1)
  else []

/-- The candidate `parent / f"\x7bstem\x7d_\x7bcounter\x7d\x7bsuffix\x7d"` tried by
`ensure_unique_filename`. -/
def uniqueCandidate (filepath : String) (counter : Nat) : String :=
  let name := pathName filepath
  let dir := filepath.dropRight name.length
  let suffix := pathSuffix name.data
  let stem : List Char := name.data.take (name.data.length - suffix.length)
  dir ++ ⟨stem⟩ ++ "_" ++ toString counter ++ ⟨suffix⟩

/-- The counter loop of `FileUtils.ensure_unique_filename`, bounded by
`fuel` (the Python loop runs until a free name appears; any fuel at least
the number of colliding names reproduces it). -/
def ensureUniqueLoop (fsExists : String → Bool) (filepath : String) : Nat → Nat → String
  | 0, counter => uniqueCandidate filepath counter
  | fuel + 1, counter =>
    if fsExists (uniqueCandidate filepath counter) = false then uniqueCandidate filepath counter
    else ensureUniqueLoop fsExists filepath fuel (counter + 1)

/-- `FileUtils.ensure_unique_filename` with the filesystem as `fsExists`. -/
def ensure_unique_filename (fsExists : String → Bool) (fuel : Nat) (filepath : String) : String :=
  if fsExists filepath = false then filepath
  else ensureUniqueLoop fsExists filepath fuel 1

/-- One insertion into the `profile_groups` dict of `export_all_assigned`
(`defaultdict(list)`; Python dicts keep first-insertion key order). -/
def groupInsert (groups : List (String × List PDFPageData)) (k : String) (p : PDFPageData) :
    List (String × List PDFPageData) :=
  if groups.any (fun g => g.1 = k) then
    groups.map (fun g => if g.1 = k then (g.1, g.2 ++ [p]) else g)
  else groups ++ [(k, [p])]

/-- The grouping loop of `export_all_assigned` over `pages_to_export`:
look the page's profile up by name (pages whose profile no longer exists
are skipped), take the profile's `output_folder` or else the app-level one
(ending the whole function with the "No Output Folder" warning when
neither is set, like the early `return`), resolve the output path, append
`.pdf` when missing, and group the page under the resulting path. -/
def buildGroups (profiles : List IndexProfile) (fallback : String) :
    List PDFPageData → List (String × List PDFPageData) →
    Except String (List (String × List PDFPageData))
  | [], acc => .ok acc
  | p :: rest, acc =>
    match p.assigned_profile with
    | none => buildGroups profiles fallback rest acc
    | some pname =>
      match get_profile profiles pname with
      | none => buildGroups profiles fallback rest acc
      | some prof =>
        let base := if prof.output_folder ≠ "" then prof.output_folder else fallback
        if base = "" then .error "No output folder set"
        else
          match prof.generate_output_path base with
          | none => .error "output pattern is malformed"
          | some op =>
            buildGroups profiles fallback rest
              (groupInsert acc (if strEndsWith op ".pdf" then op else op ++ ".pdf") p)

/-- `PDFExtractorApp.export_all_assigned` up to the construction of the
batch export jobs (the dialogs and the handing of the job list to the
exporter thread happen after this point): keep the pages with a truthy
assigned profile, group them by resolved output path, and emit one
`BATCH` job per group with a collision-free output path. -/
def export_all_assigned (profiles : List IndexProfile) (output_folder : String)
    (fsExists : String → Bool) (fuel : Nat) (all_pages : List PDFPageData) :
    Except String (List ExportJob) :=
  let pages_to_export := all_pages.filter (fun p => pyTruthy p.assigned_profile)
  (buildGroups profiles output_folder pages_to_export []).map
    (fun groups => groups.map (fun g =>
      { source_path := "BATCH", page_number := 0,
        output_path := ensure_unique_filename fsExists fuel g.1,
        pages_group := g.2 }))

/-- The resolved output path under which `export_all_assigned` groups a
page (`some` exactly when the page survives the truthiness filter and its
profile still exists; mirrors one iteration of the grouping loop). -/
def pageOutputKey (profiles : List IndexProfile) (fallback : String) (p : PDFPageData) :
    Option String :=
  match p.assigned_profile with
  | none => none
  | some pname =>
    if pname = "" then none
    else
      match get_profile profiles pname with
      | none => none
      | some prof =>
        match prof.generate_output_path (if prof.output_folder ≠ "" then prof.output_folder else fallback) with
        | none => none
        | some op => some (if strEndsWith op ".pdf" then op else op ++ ".pdf")

/-- A page whose profile lookup succeeds can determine an output base and
resolve its pattern (the hypothesis under which the grouping loop raises
no error). -/
def resolvablePage (profiles : List IndexProfile) (fallback : String) (p : PDFPageData) : Prop :=
  ∀ pname prof, p.assigned_profile = some pname → get_profile profiles pname = some prof →
    (if prof.output_folder ≠ "" then prof.output_folder else fallback) ≠ "" ∧
    prof.generate_output_path
      (if prof.output_folder ≠ "" then prof.output_folder else fallback) ≠ none

theorem anyKey_iff (acc : List (String × List PDFPageData)) (k : String) :
    acc.any (fun g => g.1 = k) = true ↔ k ∈ acc.map Prod.fst := by
  simp only [List.any_eq_true, List.mem_map, decide_eq_true_eq]

theorem groupInsert_keys (acc : List (String × List PDFPageData)) (k : String) (p : PDFPageData) :
    (groupInsert acc k p).map Prod.fst
      = if acc.any (fun g => g.1 = k) then acc.map Prod.fst else acc.map Prod.fst ++ [k] := by
  unfold groupInsert
  by_cases h : acc.any (fun g => g.1 = k) = true
  · rw [if_pos h, if_pos h, List.map_map]
    apply List.map_congr_left
    intro g _
    by_cases hg : g.1 = k <;> simp [hg]
  · rw [if_neg h, if_neg h]
    simp

theorem groupInsert_keys_nodup (acc : List (String × List PDFPageData)) (k : String)
    (p : PDFPageData) (h : (acc.map Prod.fst).Nodup) :
    ((groupInsert acc k p).map Prod.fst).Nodup := by
  rw [groupInsert_keys]
  by_cases hany : acc.any (fun g => g.1 = k) = true
  · rwa [if_pos hany]
  · rw [if_neg hany]
    have hk : k ∉ acc.map Prod.fst := fun hm => hany ((anyKey_iff acc k).mpr hm)
    simp [List.nodup_append, h, hk]

theorem groupInsert_groups (key : PDFPageData → Option String)
    (acc : List (String × List PDFPageData)) (k : String) (p : PDFPageData)
    (done : List PDFPageData)
    (h2 : ∀ g ∈ acc, g.2 = done.filter (fun q => key q == some g.1))
    (h3 : ∀ q ∈ done, ∀ k', key q = some k' → k' ∈ acc.map Prod.fst)
    (hkey : key p = some k) :
    ∀ g ∈ groupInsert acc k p, g.2 = (done ++ [p]).filter (fun q => key q == some g.1) := by
  intro g' hg'
  unfold groupInsert at hg'
  by_cases hany : acc.any (fun g => g.1 = k) = true
  · rw [if_pos hany] at hg'
    obtain ⟨g, hg, rfl⟩ := List.mem_map.mp hg'
    by_cases hgk : g.1 = k
    · rw [List.filter_append]
      simp only [hgk, if_pos]
      rw [← hgk] at hkey ⊢
      simp [← h2 g hg, hkey]
    · rw [List.filter_append]
      simp only [hgk, if_neg, if_false]
      have : ¬ (k = g.1) := fun h => hgk h.symm
      simp [← h2 g hg, hkey, this]
  · rw [if_neg hany] at hg'
    rcases List.mem_append.mp hg' with hg | hg
    · have hgk : ¬ (k = g'.1) := by
        intro h
        exact hany ((anyKey_iff acc k).mpr (h ▸ List.mem_map_of_mem Prod.fst hg))
      rw [List.filter_append, ← h2 g' hg]
      simp [hkey, hgk]
    · simp only [List.mem_singleton] at hg
      subst hg
      rw [List.filter_append]
      have hdone : done.filter (fun q => key q == some k) = [] := by
        rw [List.filter_eq_nil_iff]
        intro q hq hqk
        simp only [beq_iff_eq] at hqk
        exact hany ((anyKey_iff acc k).mpr (h3 q hq k hqk))
      simp [hdone, hkey]

theorem groupInsert_cover (key : PDFPageData → Option String)
    (acc : List (String × List PDFPageData)) (k : String) (p : PDFPageData)
    (done : List PDFPageData)
    (h3 : ∀ q ∈ done, ∀ k', key q = some k' → k' ∈ acc.map Prod.fst)
    (hkey : key p = some k) :
    ∀ q ∈ done ++ [p], ∀ k', key q = some k' → k' ∈ (groupInsert acc k p).map Prod.fst := by
  intro q hq k' hk'
  rw [groupInsert_keys]
  by_cases hany : acc.any (fun g => g.1 = k) = true
  · rw [if_pos hany]
    rcases List.mem_append.mp hq with hq | hq
    · exact h3 q hq k' hk'
    · simp only [List.mem_singleton] at hq
      subst hq
      rw [hkey] at hk'
      simp only [Option.some_inj] at hk'
      subst hk'
      exact (anyKey_iff acc _).mp hany
  · rw [if_neg hany]
    rcases List.mem_append.mp hq with hq | hq
    · exact List.mem_append_left _ (h3 q hq k' hk')
    · simp only [List.mem_singleton] at hq
      subst hq
      rw [hkey] at hk'
      simp only [Option.some_inj] at hk'
      subst hk'
      simp

theorem buildGroups_ok (profiles : List IndexProfile) (fallback : String) :
    ∀ (todo done : List PDFPageData) (acc : List (String × List PDFPageData)),
    (∀ p ∈ todo, pyTruthy p.assigned_profile = true) →
    (∀ p ∈ todo, resolvablePage profiles fallback p) →
    (acc.map Prod.fst).Nodup →
    (∀ g ∈ acc, g.2 = done.filter (fun p => pageOutputKey profiles fallback p == some g.1)) →
    (∀ p ∈ done, ∀ k, pageOutputKey profiles fallback p = some k → k ∈ acc.map Prod.fst) →
    ∃ groups, buildGroups profiles fallback todo acc = .ok groups ∧
      (groups.map Prod.fst).Nodup ∧
      (∀ g ∈ groups, g.2 = (done ++ todo).filter (fun p => pageOutputKey profiles fallback p == some g.1)) ∧
      (∀ p ∈ done ++ todo, ∀ k, pageOutputKey profiles fallback p = some k →
        k ∈ groups.map Prod.fst) := by
  intro todo
  induction todo with
  | nil =>
    intro done acc _ _ h1 h2 h3
    exact ⟨acc, rfl, h1, by simpa using h2, by simpa using h3⟩
  | cons p rest ih =>
    intro done acc htr hres h1 h2 h3
    have htrp := htr p (by simp)
    rcases hassigned : p.assigned_profile with _ | pname
    · rw [hassigned] at htrp; simp [pyTruthy] at htrp
    · have hpname : ¬ pname = "" := by
        rw [hassigned] at htrp; simpa [pyTruthy] using htrp
      rcases hprof : get_profile profiles pname with _ | prof
      · -- the profile no longer exists: the page is skipped
        have hkey : pageOutputKey profiles fallback p = none := by
          simp [pageOutputKey, hassigned, hpname, hprof]
        have step : buildGroups profiles fallback (p :: rest) acc
            = buildGroups profiles fallback rest acc := by
          simp [buildGroups, hassigned, hprof]
        rw [step]
        obtain ⟨groups, hg, hn, hgr, hcov⟩ :=
          ih (done ++ [p]) acc (fun q hq => htr q (by simp [hq]))
            (fun q hq => hres q (by simp [hq])) h1
            (fun g hg => by
              rw [h2 g hg, List.filter_append]
              simp [hkey])
            (fun q hq k hk => by
              rcases List.mem_append.mp hq with hq | hq
              · exact h3 q hq k hk
              · simp only [List.mem_singleton] at hq
                subst hq
                rw [hkey] at hk
                exact absurd hk (by simp))
        simp only [List.append_assoc, List.singleton_append] at hgr hcov
        exact ⟨groups, hg, hn, hgr, hcov⟩
      · -- the profile resolves
        obtain ⟨hbne, hgen⟩ := hres p (by simp) pname prof hassigned hprof
        simp only [ne_eq, ite_not] at hbne hgen
        rcases hop : prof.generate_output_path
            (if prof.output_folder = "" then fallback else prof.output_folder) with _ | op
        · exact absurd hop hgen
        · have hkey : pageOutputKey profiles fallback p
              = some (if strEndsWith op ".pdf" then op else op ++ ".pdf") := by
            simp [pageOutputKey, hassigned, hpname, ne_eq, ite_not, hprof, hop]
          have step : buildGroups profiles fallback (p :: rest) acc
              = buildGroups profiles fallback rest
                  (groupInsert acc (if strEndsWith op ".pdf" then op else op ++ ".pdf") p) := by
            simp [buildGroups, hassigned, hprof, ne_eq, ite_not, hbne, hop]
          rw [step]
          obtain ⟨groups, hg, hn, hgr, hcov⟩ :=
            ih (done ++ [p]) (groupInsert acc (if strEndsWith op ".pdf" then op else op ++ ".pdf") p)
              (fun q hq => htr q (by simp [hq]))
              (fun q hq => hres q (by simp [hq]))
              (groupInsert_keys_nodup acc _ p h1)
              (groupInsert_groups (pageOutputKey profiles fallback) acc _ p done h2 h3 hkey)
              (groupInsert_cover (pageOutputKey profiles fallback) acc _ p done h3 hkey)
          simp only [List.append_assoc, List.singleton_append] at hgr hcov
          exact ⟨groups, hg, hn, hgr, hcov⟩

theorem ensure_unique_filename_id (fsExists : String → Bool) (fuel : Nat) (s : String)
    (hfs : ∀ t, fsExists t = false) : ensure_unique_filename fsExists fuel s = s := by
  unfold ensure_unique_filename
  rw [if_pos (hfs s)]

theorem pageOutputKey_truthy (profiles : List IndexProfile) (fallback : String)
    (p : PDFPageData) (k : String) (h : pageOutputKey profiles fallback p = some k) :
    pyTruthy p.assigned_profile = true := by
  rcases hass : p.assigned_profile with _ | pname
  · rw [show pageOutputKey profiles fallback p = none from by simp [pageOutputKey, hass]] at h
    exact Option.noConfusion h
  · by_cases hp : pname = ""
    · rw [show pageOutputKey profiles fallback p = none from by
        simp [pageOutputKey, hass, hp]] at h
      exact Option.noConfusion h
    · simp [pyTruthy, hass, hp]

theorem filter_key_over_truthy (profiles : List IndexProfile) (fallback : String)
    (all_pages : List PDFPageData) (k : String) :
    (all_pages.filter (fun p => pyTruthy p.assigned_profile)).filter
        (fun p => pageOutputKey profiles fallback p == some k)
      = all_pages.filter (fun p => pageOutputKey profiles fallback p == some k) := by
  induction all_pages with
  | nil => rfl
  | cons p rest ih =>
    by_cases ht : pyTruthy p.assigned_profile = true
    · simp only [List.filter_cons, ht, if_pos]
      by_cases hk : (pageOutputKey profiles fallback p == some k) = true <;>
        simp [hk, ih]
    · have hk : ¬ (pageOutputKey profiles fallback p == some k) = true := by
        intro hkk
        simp only [beq_iff_eq] at hkk
        exact ht (pageOutputKey_truthy _ _ _ _ hkk)
      simp [List.filter_cons, ht, hk, ih]

/-- C6: export job construction groups the pages carrying assigned
profiles by their resolved output path (`.pdf` appended when missing):
when an output base is configured and the filesystem holds no colliding
output, construction succeeds, distinct jobs carry distinct output paths,
each job's `pages_group` is exactly the catalog pages resolving to that
job's path — so two pages with identical resolved paths share one job and
two with differing paths get two jobs — and every page that resolves to a
path lands in some job, while pages whose assigned profile no longer
exists resolve to no path and are excluded without failing the batch. -/
theorem export_all_assigned_groups (profiles : List IndexProfile) (output_folder : String)
    (fsExists : String → Bool) (fuel : Nat) (all_pages : List PDFPageData)
    (hres : ∀ p ∈ all_pages, resolvablePage profiles output_folder p)
    (hfs : ∀ s, fsExists s = false) :
    ∃ jobs, export_all_assigned profiles output_folder fsExists fuel all_pages = .ok jobs ∧
      (jobs.map (fun j => j.output_path)).Nodup ∧
      (∀ j ∈ jobs, j.pages_group
        = all_pages.filter (fun p => pageOutputKey profiles output_folder p == some j.output_path)) ∧
      (∀ p ∈ all_pages, ∀ k, pageOutputKey profiles output_folder p = some k →
        ∃ j ∈ jobs, j.output_path = k) := by
  obtain ⟨groups, hg, hn, hgr, hcov⟩ :=
    buildGroups_ok profiles output_folder
      (all_pages.filter (fun p => pyTruthy p.assigned_profile)) [] []
      (fun q hq => (List.mem_filter.mp hq).2)
      (fun q hq => hres q (List.mem_filter.mp hq).1)
      (by simp) (by simp) (by simp)
  simp only [List.nil_append] at hgr hcov
  refine ⟨groups.map (fun g =>
      { source_path := "BATCH", page_number := 0,
        output_path := ensure_unique_filename fsExists fuel g.1, pages_group := g.2 }), ?_, ?_, ?_, ?_⟩
  · simp only [export_all_assigned, hg]
    rfl
  · rw [List.map_map]
    have : ((fun (j : ExportJob) => j.output_path) ∘ (fun (g : String × List PDFPageData) =>
        ({ source_path := "BATCH", page_number := 0,
           output_path := ensure_unique_filename fsExists fuel g.1,
           pages_group := g.2 } : ExportJob))) = fun g => g.1 := by
      funext g
      simp [ensure_unique_filename_id fsExists fuel g.1 hfs]
    rw [this]
    exact hn
  · intro j hj
    obtain ⟨g, hgmem, rfl⟩ := List.mem_map.mp hj
    simp only
    rw [hgr g hgmem, ensure_unique_filename_id fsExists fuel g.1 hfs,
      filter_key_over_truthy]
  · intro p hp k hk
    have htr := pageOutputKey_truthy profiles output_folder p k hk
    have hpf : p ∈ all_pages.filter (fun p => pyTruthy p.assigned_profile) :=
      List.mem_filter.mpr ⟨hp, htr⟩
    have hkmem := hcov p hpf k hk
    obtain ⟨g, hgmem, hgfst⟩ := List.mem_map.mp hkmem
    refine ⟨_, List.mem_map_of_mem _ hgmem, ?_⟩
    simpa [ensure_unique_filename_id fsExists fuel g.1 hfs] using hgfst

/-- Concrete inputs for the C6 witness: two pages of profile "P" resolving
to the same path, one page whose profile is gone. -/
def c6Profile : IndexProfile := { name := "P", output_folder := "/o" }

def c6Page1 : PDFPageData := { source_path := "s.pdf", page_number := 0, assigned_profile := some "P" }

def c6Page2 : PDFPageData := { source_path := "s.pdf", page_number := 1, assigned_profile := some "P" }

def c6Page3 : PDFPageData := { source_path := "s.pdf", page_number := 2, assigned_profile := some "Q" }

theorem export_all_assigned_groups_witness :
    ∃ jobs, export_all_assigned [c6Profile] "" (fun _ => false) 0 [c6Page1, c6Page2, c6Page3]
        = .ok jobs ∧
      (jobs.map (fun j => j.output_path)).Nodup ∧
      (∀ j ∈ jobs, j.pages_group
        = [c6Page1, c6Page2, c6Page3].filter
            (fun p => pageOutputKey [c6Profile] "" p == some j.output_path)) ∧
      (∀ p ∈ [c6Page1, c6Page2, c6Page3], ∀ k, pageOutputKey [c6Profile] "" p = some k →
        ∃ j ∈ jobs, j.output_path = k) := by
  apply export_all_assigned_groups [c6Profile] "" (fun _ => false) 0 [c6Page1, c6Page2, c6Page3]
  · intro p hp pname prof hass hprof
    simp only [List.mem_cons, List.not_mem_nil, or_false] at hp
    rcases hp with rfl | rfl | rfl
    · rw [show c6Page1.assigned_profile = some "P" from rfl] at hass
      simp only [Option.some_inj] at hass
      subst hass
      rw [show get_profile [c6Profile] "P" = some c6Profile from rfl] at hprof
      simp only [Option.some_inj] at hprof
      subst hprof
      exact ⟨by decide, by decide⟩
    · rw [show c6Page2.assigned_profile = some "P" from rfl] at hass
      simp only [Option.some_inj] at hass
      subst hass
      rw [show get_profile [c6Profile] "P" = some c6Profile from rfl] at hprof
      simp only [Option.some_inj] at hprof
      subst hprof
      exact ⟨by decide, by decide⟩
    · rw [show c6Page3.assigned_profile = some "Q" from rfl] at hass
      simp only [Option.some_inj] at hass
      subst hass
      rw [show get_profile [c6Profile] "Q" = none from rfl] at hprof
      exact absurd hprof (by simp)
  · exact fun _ => rfl

/-! ### Claims C4 and C5: the page catalog
(`PageListWidget.assign_profile_to_selected`,
`PageListWidget.mark_source_as_processed`) -/

/-- The loop state of `assign_profile_to_selected`, together with the
rename side effects performed so far: the pages behind the widget items,
the running count, the `processed_sources` set, and — in order — the
sources for which the `done-` rename (`os.rename`, modelled as
succeeding) was carried out. -/
structure AssignState where
  pages : List PDFPageData
  count : Nat
  processedSources : List String
  renamed : List String
deriving Repr, DecidableEq

/-- `PageListWidget.mark_source_as_processed`: when the file name does not
already start with `done-`, rename the source file and point every page
from that source at the new path. -/
def mark_source_as_processed (st : AssignState) (source_path : String) : AssignState :=
  if strStartsWith (pathName source_path) "done-" then st
  else
    { st with
      renamed := st.renamed ++ [source_path],
      pages := st.pages.map (fun q =>
        if q.source_path = source_path then { q with source_path := doneSourcePath source_path }
        else q) }

/-- One iteration of the `assign_profile_to_selected` loop, at item `i`:
for a selected page, assign the profile (`assign_profile` writes
`assigned_profile`, and its `set_assigned_state` unchecks the box, which
clears `selected`), count it, and — on first sight of the page's current
source — check whether every page of that source is now assigned, marking
the source processed when so. -/
def assignStep (profile_name : String) (st : AssignState) (i : Nat) : AssignState :=
  match st.pages.get? i with
  | none => st
  | some p =>
    if p.selected then
      let pages1 := st.pages.set i { p with assigned_profile := some profile_name, selected := false }
      let st1 : AssignState := { st with pages := pages1, count := st.count + 1 }
      if p.source_path ∈ st1.processedSources then st1
      else
        let st2 : AssignState := { st1 with processedSources := p.source_path :: st1.processedSources }
        if pages1.all (fun q => !(q.source_path == p.source_path) || q.assigned_profile.isSome) then
          mark_source_as_processed st2 p.source_path
        else st2
    else st

/-- The loop of `assign_profile_to_selected` run over the first `k`
items. -/
def assignLoopUpTo (profile_name : String) (pages : List PDFPageData) (k : Nat) : AssignState :=
  (List.range k).foldl (assignStep profile_name) ⟨pages, 0, [], []⟩

/-- `PageListWidget.assign_profile_to_selected`: iterate over all items
(the widget list itself is never restructured during the loop, so the
iteration is by index over the original length); the Python method
returns `selected_count`, here the `count` field of the final state. -/
def assign_profile_to_selected (profile_name : String) (pages : List PDFPageData) : AssignState :=
  assignLoopUpTo profile_name pages pages.length

theorem assignLoopUpTo_succ (name : String) (pages : List PDFPageData) (k : Nat) :
    assignLoopUpTo name pages (k + 1) = assignStep name (assignLoopUpTo name pages k) k := by
  unfold assignLoopUpTo
  rw [List.range_succ, List.foldl_append]
  rfl

theorem mark_fields (st : AssignState) (sp : String) :
    (mark_source_as_processed st sp).count = st.count ∧
    (mark_source_as_processed st sp).processedSources = st.processedSources ∧
    (mark_source_as_processed st sp).pages.length = st.pages.length ∧
    ∀ j o, st.pages.get? j = some o →
      ∃ q, (mark_source_as_processed st sp).pages.get? j = some q ∧
        q.selected = o.selected ∧ q.assigned_profile = o.assigned_profile ∧
        q.page_number = o.page_number := by
  unfold mark_source_as_processed
  split
  · exact ⟨rfl, rfl, rfl, fun j o h => ⟨o, h, rfl, rfl, rfl⟩⟩
  · refine ⟨rfl, rfl, by simp, fun j o h => ?_⟩
    refine ⟨_, by rw [List.get?_map, h]; rfl, ?_⟩
    by_cases hs : o.source_path = sp <;> simp [hs]

theorem assignStep_none (name : String) (st : AssignState) (k : Nat)
    (hq : st.pages.get? k = none) : assignStep name st k = st := by
  unfold assignStep
  rw [hq]

theorem assignStep_not_selected (name : String) (st : AssignState) (k : Nat) (q : PDFPageData)
    (hq : st.pages.get? k = some q) (hsel : q.selected = false) : assignStep name st k = st := by
  unfold assignStep
  rw [hq]
  simp [hsel]

theorem assignStep_selected_fields (name : String) (st : AssignState) (k : Nat) (q : PDFPageData)
    (hq : st.pages.get? k = some q) (hsel : q.selected = true) :
    (assignStep name st k).count = st.count + 1 ∧
    (assignStep name st k).pages.length = st.pages.length ∧
    (∀ j o, j ≠ k → st.pages.get? j = some o →
      ∃ q', (assignStep name st k).pages.get? j = some q' ∧
        q'.selected = o.selected ∧ q'.assigned_profile = o.assigned_profile ∧
        q'.page_number = o.page_number) ∧
    (∃ q', (assignStep name st k).pages.get? k = some q' ∧
      q'.selected = false ∧ q'.assigned_profile = some name ∧
      q'.page_number = q.page_number) := by
  have hk : k < st.pages.length := by
    by_contra hlt
    rw [List.get?_eq_none.mpr (by omega)] at hq
    exact Option.noConfusion hq
  have hset_len : (st.pages.set k { q with assigned_profile := some name, selected := false }).length
      = st.pages.length := List.length_set _ _ _
  have hset_ne : ∀ j, j ≠ k →
      (st.pages.set k { q with assigned_profile := some name, selected := false }).get? j
        = st.pages.get? j := fun j hj => List.get?_set_ne _ _ (fun h => hj h.symm)
  have hset_eq : (st.pages.set k { q with assigned_profile := some name, selected := false }).get? k
      = some { q with assigned_profile := some name, selected := false } :=
    List.get?_set_eq_of_lt _ hk
  unfold assignStep
  rw [hq]
  simp only [hsel, if_true]
  by_cases hmem : q.source_path ∈ st.processedSources
  · rw [if_pos hmem]
    refine ⟨rfl, hset_len, ?_, ?_⟩
    · intro j o hj ho
      exact ⟨o, by rw [hset_ne j hj]; exact ho, rfl, rfl, rfl⟩
    · exact ⟨_, hset_eq, rfl, rfl, rfl⟩
  · rw [if_neg hmem]
    split
    · -- all pages of the source assigned: mark_source_as_processed runs
      obtain ⟨hc, _, hl, hget⟩ := mark_fields
        { pages := st.pages.set k { q with assigned_profile := some name, selected := false },
          count := st.count + 1,
          processedSources := q.source_path :: st.processedSources,
          renamed := st.renamed } q.source_path
      refine ⟨hc, by rw [hl]; exact hset_len, ?_, ?_⟩
      · intro j o hj ho
        obtain ⟨q', hq', h1, h2, h3⟩ := hget j o (by rw [hset_ne j hj]; exact ho)
        exact ⟨q', hq', h1, h2, h3⟩
      · obtain ⟨q', hq', h1, h2, h3⟩ := hget k _ hset_eq
        exact ⟨q', hq', h1, h2, h3⟩
    · refine ⟨rfl, hset_len, ?_, ?_⟩
      · intro j o hj ho
        exact ⟨o, by rw [hset_ne j hj]; exact ho, rfl, rfl, rfl⟩
      · exact ⟨_, hset_eq, rfl, rfl, rfl⟩

theorem assignLoop_basic (name : String) (pages : List PDFPageData) :
    ∀ k, k ≤ pages.length →
    (assignLoopUpTo name pages k).pages.length = pages.length ∧
    (assignLoopUpTo name pages k).count = (pages.take k).countP (fun p => p.selected) ∧
    (∀ j o, k ≤ j → pages.get? j = some o →
      ∃ q, (assignLoopUpTo name pages k).pages.get? j = some q ∧
        q.selected = o.selected ∧ q.assigned_profile = o.assigned_profile ∧
        q.page_number = o.page_number) ∧
    (∀ j o, j < k → pages.get? j = some o →
      ∃ q, (assignLoopUpTo name pages k).pages.get? j = some q ∧
        q.selected = false ∧ q.page_number = o.page_number ∧
        q.assigned_profile = (if o.selected then some name else o.assigned_profile)) := by
  intro k
  induction k with
  | zero =>
    intro _
    refine ⟨rfl, by simp [assignLoopUpTo], ?_, ?_⟩
    · intro j o _ ho
      exact ⟨o, ho, rfl, rfl, rfl⟩
    · intro j o hj _
      omega
  | succ k ih =>
    intro hk1
    obtain ⟨ihlen, ihcnt, ihhi, ihlo⟩ := ih (by omega)
    have hk : k < pages.length := by omega
    rcases ho : pages.get? k with _ | o
    · rw [List.get?_eq_none] at ho
      omega
    obtain ⟨q, hq, hqsel, hqass, hqpn⟩ := ihhi k o le_rfl ho
    have ho2 : pages[k]? = some o := by rw [← List.get?_eq_getElem?]; exact ho
    have htake : (pages.take (k + 1)).countP (fun p => p.selected)
        = (pages.take k).countP (fun p => p.selected) + (if o.selected then 1 else 0) := by
      rw [List.take_succ, List.countP_append, ho2]
      by_cases hos : o.selected <;> simp [hos]
    rw [assignLoopUpTo_succ]
    by_cases hos : o.selected = true
    · -- the page at k is selected and gets assigned
      rw [hos] at hqsel
      obtain ⟨hc, hl, hothers, hatk⟩ := assignStep_selected_fields name _ k q hq hqsel
      refine ⟨hl.trans ihlen, ?_, ?_, ?_⟩
      · rw [hc, ihcnt, htake, hos]
        simp
      · intro j o' hj ho'
        obtain ⟨q1, hq1, e1, e2, e3⟩ := ihhi j o' (by omega) ho'
        obtain ⟨q2, hq2, f1, f2, f3⟩ := hothers j q1 (by omega) hq1
        exact ⟨q2, hq2, f1.trans e1, f2.trans e2, f3.trans e3⟩
      · intro j o' hj ho'
        by_cases hjk : j = k
        · subst hjk
          obtain ⟨q2, hq2, f1, f2, f3⟩ := hatk
          rw [ho] at ho'
          obtain rfl := Option.some_inj.mp ho'
          refine ⟨q2, hq2, f1, f3.trans hqpn, ?_⟩
          simp only [hos, if_true]
          exact f2
        · obtain ⟨q1, hq1, e1, e2, e3⟩ := ihlo j o' (by omega) ho'
          obtain ⟨q2, hq2, f1, f2, f3⟩ := hothers j q1 hjk hq1
          exact ⟨q2, hq2, f1.trans e1, f3.trans e2, f2.trans e3⟩
    · -- the page at k is not selected: the step is a no-op
      simp only [Bool.not_eq_true] at hos
      rw [hos] at hqsel
      rw [assignStep_not_selected name _ k q hq hqsel]
      refine ⟨ihlen, by rw [ihcnt, htake, hos]; simp, ?_, ?_⟩
      · intro j o' hj ho'
        exact ihhi j o' (by omega) ho'
      · intro j o' hj ho'
        by_cases hjk : j = k
        · subst hjk
          rw [ho] at ho'
          obtain rfl := Option.some_inj.mp ho'
          exact ⟨q, hq, hqsel, hqpn, by rw [hos]; simpa using hqass⟩
        · exact ihlo j o' (by omega) ho'

/-- C4: `assign_profile_to_selected` returns the number of pages selected
at call time; by the end of the call every such page carries
`assigned_profile = profile_name` with its `selected` flag cleared, every
other page keeps its assignment (and stays unselected), page identities
are untouched, and the catalog keeps its size — so repeated calls keep the
catalog consistent. -/
theorem assign_profile_to_selected_spec (name : String) (pages : List PDFPageData) :
    (assign_profile_to_selected name pages).count = pages.countP (fun p => p.selected) ∧
    (assign_profile_to_selected name pages).pages.length = pages.length ∧
    ∀ j o, pages.get? j = some o →
      ∃ q, (assign_profile_to_selected name pages).pages.get? j = some q ∧
        q.selected = false ∧ q.page_number = o.page_number ∧
        q.assigned_profile = (if o.selected then some name else o.assigned_profile) := by
  obtain ⟨hlen, hcnt, _, hlo⟩ := assignLoop_basic name pages pages.length le_rfl
  refine ⟨by simpa using hcnt, hlen, ?_⟩
  intro j o ho
  have hj : j < pages.length := by
    by_contra h
    rw [List.get?_eq_none.mpr (by omega)] at ho
    exact Option.noConfusion ho
  exact hlo j o hj ho

/-- Concrete pages for the C4 witness: one selected page, one unselected
page already carrying another profile. -/
def c4PageA : PDFPageData := { source_path := "a.pdf", page_number := 0, selected := true }

def c4PageB : PDFPageData :=
  { source_path := "b.pdf", page_number := 1, selected := false, assigned_profile := some "Q" }

theorem assign_profile_to_selected_spec_witness :
    (assign_profile_to_selected "P" [c4PageA, c4PageB]).count = 1 ∧
    (∃ q, (assign_profile_to_selected "P" [c4PageA, c4PageB]).pages.get? 0 = some q ∧
      q.selected = false ∧ q.page_number = 0 ∧ q.assigned_profile = some "P") :=
  ⟨by rw [(assign_profile_to_selected_spec "P" [c4PageA, c4PageB]).1]; decide,
   by
    obtain ⟨q, hq, h1, h2, h3⟩ :=
      (assign_profile_to_selected_spec "P" [c4PageA, c4PageB]).2.2 0 c4PageA rfl
    exact ⟨q, hq, h1, by simpa [c4PageA] using h2, by simpa [c4PageA] using h3⟩⟩

/-! ### Path-name facts used by the source-completion analysis -/

theorem takeWhile_append_all {α} (q : α → Bool) (l1 l2 : List α) (h : ∀ c ∈ l1, q c = true) :
    (l1 ++ l2).takeWhile q = l1 ++ l2.takeWhile q := by
  induction l1 with
  | nil => simp
  | cons a l ih =>
    have ha : q a = true := h a (by simp)
    simp [List.takeWhile_cons, ha, ih (fun c hc => h c (by simp [hc]))]

theorem takeWhile_dropWhile_nil {α} (q : α → Bool) (l : List α) :
    (l.dropWhile q).takeWhile q = [] := by
  induction l with
  | nil => rfl
  | cons a l ih =>
    rw [List.dropWhile_cons]
    by_cases h : q a = true <;> simp [h, ih, List.takeWhile_cons]

theorem pathName_no_slash (p : String) : ∀ c ∈ (pathName p).data, decide (c ≠ '/') = true := by
  intro c hc
  simp only [pathName] at hc
  rw [List.mem_reverse] at hc
  exact List.mem_takeWhile_imp (p := fun c => decide (c ≠ '/')) hc

theorem data_decomp (p : String) :
    p.data = (p.data.reverse.dropWhile (fun c => c ≠ '/')).reverse ++ (pathName p).data := by
  unfold pathName
  conv_lhs => rw [← List.reverse_reverse p.data,
    ← List.takeWhile_append_dropWhile (p := fun c => c ≠ '/') (l := p.data.reverse),
    List.reverse_append]

theorem take_dir_eq (p : String) :
    p.data.take (p.data.length - (pathName p).data.length)
      = (p.data.reverse.dropWhile (fun c => c ≠ '/')).reverse := by
  have hd := data_decomp p
  have hlen : (p.data.reverse.dropWhile (fun c => c ≠ '/')).reverse.length
      = p.data.length - (pathName p).data.length := by
    have h2 := congrArg List.length hd
    rw [List.length_append] at h2
    omega
  calc p.data.take (p.data.length - (pathName p).data.length)
      = ((p.data.reverse.dropWhile (fun c => c ≠ '/')).reverse ++ (pathName p).data).take
          (p.data.length - (pathName p).data.length) := by rw [← hd]
    _ = _ := List.take_left' hlen

theorem doneSourcePath_data (p : String) :
    (doneSourcePath p).data
      = (p.data.reverse.dropWhile (fun c => c ≠ '/')).reverse
        ++ ("done-".data ++ (pathName p).data) := by
  show p.data.take (p.data.length - (pathName p).data.length)
      ++ ("done-" ++ pathName p).data = _
  rw [String.data_append, take_dir_eq]

theorem pathName_doneSourcePath (p : String) :
    pathName (doneSourcePath p) = ⟨"done-".data ++ (pathName p).data⟩ := by
  unfold pathName
  apply String.ext
  show ((doneSourcePath p).data.reverse.takeWhile (fun c => c ≠ '/')).reverse = _
  rw [doneSourcePath_data, List.reverse_append]
  have hnos : ∀ c ∈ ("done-".data ++ (pathName p).data).reverse, decide (c ≠ '/') = true := by
    intro c hc
    rw [List.mem_reverse] at hc
    rcases List.mem_append.mp hc with hc | hc
    · fin_cases hc <;> simp
    · exact pathName_no_slash p c hc
  rw [takeWhile_append_all _ _ _ hnos]
  have hdw : ((p.data.reverse.dropWhile (fun c => c ≠ '/')).reverse).reverse.takeWhile
      (fun c => c ≠ '/') = [] := by
    rw [List.reverse_reverse]
    exact takeWhile_dropWhile_nil _ _
  rw [hdw, List.append_nil, List.reverse_reverse]
  rfl

theorem isPrefixOf_append_self {α} [BEq α] [LawfulBEq α] (l1 l2 : List α) :
    l1.isPrefixOf (l1 ++ l2) = true := by
  induction l1 with
  | nil => simp [List.isPrefixOf]
  | cons a l ih => simp [List.isPrefixOf, ih]

theorem doneSourcePath_starts_done (p : String) :
    strStartsWith (pathName (doneSourcePath p)) "done-" = true := by
  rw [pathName_doneSourcePath]
  exact isPrefixOf_append_self _ _

theorem findIdx?_offset {α} (p : α → Bool) : ∀ (l : List α) (i : Nat),
    l.findIdx? p i = (l.findIdx? p 0).map (fun j => j + i) := by
  intro l
  induction l with
  | nil => intro i; rfl
  | cons x xs ih =>
    intro i
    rw [List.findIdx?_cons, List.findIdx?_cons]
    by_cases h : p x = true
    · simp [h]
    · simp only [h, Bool.false_eq_true, if_false]
      rw [ih (i + 1), ih 1]
      rcases xs.findIdx? p 0 with _ | j
      · rfl
      · simp only [Option.map_some']
        congr 1
        omega

theorem findIdx?_eq_some_of {α} (p : α → Bool) : ∀ (l : List α) (k : Nat) (a : α),
    l.get? k = some a → p a = true →
    (∀ j b, j < k → l.get? j = some b → p b = false) →
    l.findIdx? p = some k := by
  intro l
  induction l with
  | nil => intro k a ha _ _; simp at ha
  | cons x xs ih =>
    intro k a ha hp hmin
    match k with
    | 0 =>
      simp only [List.get?_cons_zero, Option.some_inj] at ha
      subst ha
      rw [List.findIdx?_cons]
      simp [hp]
    | k + 1 =>
      have hx : p x = false := hmin 0 x (by omega) rfl
      rw [List.findIdx?_cons]
      simp only [hx, Bool.false_eq_true, if_false]
      have hrec := ih k a (by simpa using ha) hp
        (fun j b hj hb => hmin (j + 1) b (by omega) (by simpa using hb))
      rw [findIdx?_offset p xs 1, hrec]
      rfl

theorem findIdx?_eq_some_elim {α} (p : α → Bool) (l : List α) (i : Nat)
    (h : l.findIdx? p = some i) :
    ∃ a, l.get? i = some a ∧ p a = true ∧
      ∀ j b, j < i → l.get? j = some b → p b = false := by
  rw [List.findIdx?_eq_some_iff_findIdx_eq] at h
  obtain ⟨hilen, hidx⟩ := h
  subst hidx
  refine ⟨l[List.findIdx p l],
    by rw [List.get?_eq_getElem?]; exact (List.getElem?_eq_some).mpr ⟨hilen, rfl⟩,
    List.findIdx_getElem (w := hilen), fun j b hj hb => ?_⟩
  rw [List.get?_eq_getElem?] at hb
  obtain ⟨hjl, rfl⟩ := (List.getElem?_eq_some).mp hb
  exact List.not_of_lt_findIdx hj

/-- The index of the first currently-selected page of source `s` (the
iteration of the assignment loop at which the source-completion check for
`s` runs). -/
def firstSelectedIdx (pages : List PDFPageData) (s : String) : Option Nat :=
  pages.findIdx? (fun p => p.selected && p.source_path == s)

/-- Every page of source `s` other than the one at index `i` already
carries an assigned profile. -/
def othersAssigned (pages : List PDFPageData) (s : String) (i : Nat) : Prop :=
  ∀ j o, pages.get? j = some o → j ≠ i → o.source_path = s → o.assigned_profile.isSome = true

theorem assignStep_selected_eq (name : String) (st : AssignState) (k : Nat) (q : PDFPageData)
    (hq : st.pages.get? k = some q) (hsel : q.selected = true) :
    assignStep name st k =
      (if q.source_path ∈ st.processedSources then
        { st with
          pages := st.pages.set k { q with assigned_profile := some name, selected := false },
          count := st.count + 1 }
       else if (st.pages.set k { q with assigned_profile := some name, selected := false }).all
          (fun r => !(r.source_path == q.source_path) || r.assigned_profile.isSome) then
        mark_source_as_processed
          { st with
            pages := st.pages.set k { q with assigned_profile := some name, selected := false },
            count := st.count + 1,
            processedSources := q.source_path :: st.processedSources } q.source_path
       else
        { st with
          pages := st.pages.set k { q with assigned_profile := some name, selected := false },
          count := st.count + 1,
          processedSources := q.source_path :: st.processedSources }) := by
  unfold assignStep
  rw [hq]
  simp only [hsel, if_true]

theorem assignLoop_rename (name : String) (pages : List PDFPageData)
    (h1 : ∀ o ∈ pages, strStartsWith (pathName o.source_path) "done-" = false) :
    ∀ k, k ≤ pages.length →
    (assignLoopUpTo name pages k).renamed.Nodup ∧
    (∀ s ∈ (assignLoopUpTo name pages k).renamed,
      strStartsWith (pathName s) "done-" = false) ∧
    (∀ s, s ∈ (assignLoopUpTo name pages k).renamed ↔
      ∃ i, i < k ∧ firstSelectedIdx pages s = some i ∧ othersAssigned pages s i) ∧
    (∀ j o, pages.get? j = some o →
      ∃ q, (assignLoopUpTo name pages k).pages.get? j = some q ∧
        q.source_path = (if o.source_path ∈ (assignLoopUpTo name pages k).renamed
          then doneSourcePath o.source_path else o.source_path)) ∧
    (∀ s, strStartsWith (pathName s) "done-" = false →
      (s ∈ (assignLoopUpTo name pages k).processedSources ↔
        ∃ j o, j < k ∧ pages.get? j = some o ∧ o.selected = true ∧ o.source_path = s)) := by
  intro k
  induction k with
  | zero =>
    intro _
    refine ⟨List.nodup_nil, by simp [assignLoopUpTo], ?_, ?_, ?_⟩
    · intro s
      simp only [assignLoopUpTo, List.range_zero, List.foldl_nil, List.not_mem_nil, false_iff]
      rintro ⟨i, hi, -, -⟩
      omega
    · intro j o ho
      exact ⟨o, ho, by simp [assignLoopUpTo]⟩
    · intro s _
      simp only [assignLoopUpTo, List.range_zero, List.foldl_nil, List.not_mem_nil, false_iff]
      rintro ⟨j, o, hj, -, -, -⟩
      omega
  | succ k ih =>
    intro hk1
    obtain ⟨ihnd, ihnames, ihchar, ihsrc, ihproc⟩ := ih (by omega)
    obtain ⟨ihlen, -, ihhi, ihlo⟩ := assignLoop_basic name pages k (by omega)
    have hk : k < pages.length := by omega
    rcases ho : pages.get? k with _ | o
    · rw [List.get?_eq_none] at ho; omega
    have homem : o ∈ pages := List.get?_mem ho
    have hond : strStartsWith (pathName o.source_path) "done-" = false := h1 o homem
    obtain ⟨q, hq, hqsel, hqass, -⟩ := ihhi k o le_rfl ho
    obtain ⟨q', hq', hqsrc⟩ := ihsrc k o ho
    rw [hq] at hq'
    obtain rfl := Option.some_inj.mp hq'
    -- the elimination pattern for a completion check firing at index k
    have hfirstk : ∀ s, firstSelectedIdx pages s = some k →
        o.selected = true ∧ o.source_path = s ∧
        (∀ j b, j < k → pages.get? j = some b →
          (b.selected && b.source_path == s) = false) := by
      intro s hf
      obtain ⟨a, ha, hpa, hmin⟩ := findIdx?_eq_some_elim _ pages k hf
      rw [ho] at ha
      obtain rfl := Option.some_inj.mp ha
      rw [Bool.and_eq_true, beq_iff_eq] at hpa
      exact ⟨hpa.1, hpa.2, hmin⟩
    rw [assignLoopUpTo_succ]
    by_cases hos : o.selected = true
    · -- selected page at k
      rw [hos] at hqsel
      rw [assignStep_selected_eq name _ k q hq hqsel]
      by_cases hA : o.source_path ∈ (assignLoopUpTo name pages k).renamed
      · -- the source was already renamed: its current path carries `done-`
        have hqsrcA : q.source_path = doneSourcePath o.source_path := by
          rw [hqsrc, if_pos hA]
        have hqdone : strStartsWith (pathName q.source_path) "done-" = true := by
          rw [hqsrcA]; exact doneSourcePath_starts_done _
        have hmarkid : ∀ st2 : AssignState,
            mark_source_as_processed st2 q.source_path = st2 := by
          intro st2
          unfold mark_source_as_processed
          rw [if_pos hqdone]
        have hprocmem : o.source_path ∈ (assignLoopUpTo name pages k).processedSources := by
          obtain ⟨i, hik, hfirst, -⟩ := (ihchar o.source_path).mp hA
          obtain ⟨a, ha, hpa, -⟩ := findIdx?_eq_some_elim _ pages i hfirst
          rw [Bool.and_eq_true, beq_iff_eq] at hpa
          exact (ihproc o.source_path hond).mpr ⟨i, a, hik, ha, hpa.1, hpa.2⟩
        have hchar' : ∀ s, s ∈ (assignLoopUpTo name pages k).renamed ↔
            ∃ i, i < k + 1 ∧ firstSelectedIdx pages s = some i ∧ othersAssigned pages s i := by
          intro s
          constructor
          · intro hs
            obtain ⟨i, hik, h2, h3⟩ := (ihchar s).mp hs
            exact ⟨i, by omega, h2, h3⟩
          · rintro ⟨i, hik1, hfirst, hoth⟩
            by_cases hik : i < k
            · exact (ihchar s).mpr ⟨i, hik, hfirst, hoth⟩
            · have : i = k := by omega
              subst this
              obtain ⟨-, rfl, -⟩ := hfirstk s hfirst
              exact hA
        have hsrc' : ∀ j oj, pages.get? j = some oj →
            ∃ r, ((assignLoopUpTo name pages k).pages.set k
                { q with assigned_profile := some name, selected := false }).get? j = some r ∧
              r.source_path = (if oj.source_path ∈ (assignLoopUpTo name pages k).renamed
                then doneSourcePath oj.source_path else oj.source_path) := by
          intro j oj hoj
          by_cases hjk : j = k
          · subst hjk
            rw [ho] at hoj
            obtain rfl := Option.some_inj.mp hoj
            refine ⟨_, List.get?_set_eq_of_lt _ (by rw [ihlen]; omega), ?_⟩
            rw [if_pos hA]
            exact hqsrcA
          · obtain ⟨r, hr, hrsrc⟩ := ihsrc j oj hoj
            exact ⟨r, by rw [List.get?_set_ne _ _ (fun h => hjk h.symm)]; exact hr, hrsrc⟩
        have hproc' : ∀ s, strStartsWith (pathName s) "done-" = false →
            ∀ extra : Prop, (s ∈ (assignLoopUpTo name pages k).processedSources ∨ extra ∧ s = q.source_path) →
            True := fun _ _ _ _ => trivial
        by_cases hmem : q.source_path ∈ (assignLoopUpTo name pages k).processedSources
        · rw [if_pos hmem]
          refine ⟨ihnd, ihnames, hchar', hsrc', ?_⟩
          intro s hsnd
          constructor
          · intro hs
            obtain ⟨j, oj, hjk, h2, h3, h4⟩ := (ihproc s hsnd).mp hs
            exact ⟨j, oj, by omega, h2, h3, h4⟩
          · rintro ⟨j, oj, hjk1, hoj, hojsel, hojsrc⟩
            by_cases hjk : j < k
            · exact (ihproc s hsnd).mpr ⟨j, oj, hjk, hoj, hojsel, hojsrc⟩
            · have : j = k := by omega
              subst this
              rw [ho] at hoj
              obtain rfl := Option.some_inj.mp hoj
              subst hojsrc
              exact hprocmem
        · rw [if_neg hmem]
          have hcollapse : ∀ c : Bool,
              (if c = true then
                mark_source_as_processed
                  { assignLoopUpTo name pages k with
                    pages := (assignLoopUpTo name pages k).pages.set k
                      { q with assigned_profile := some name, selected := false },
                    count := (assignLoopUpTo name pages k).count + 1,
                    processedSources := q.source_path :: (assignLoopUpTo name pages k).processedSources }
                  q.source_path
               else
                { assignLoopUpTo name pages k with
                  pages := (assignLoopUpTo name pages k).pages.set k
                    { q with assigned_profile := some name, selected := false },
                  count := (assignLoopUpTo name pages k).count + 1,
                  processedSources := q.source_path :: (assignLoopUpTo name pages k).processedSources })
              = { assignLoopUpTo name pages k with
                  pages := (assignLoopUpTo name pages k).pages.set k
                    { q with assigned_profile := some name, selected := false },
                  count := (assignLoopUpTo name pages k).count + 1,
                  processedSources := q.source_path :: (assignLoopUpTo name pages k).processedSources } := by
            intro c
            rcases c with _ | _
            · simp
            · simp [hmarkid]
          rw [hcollapse]
          refine ⟨ihnd, ihnames, hchar', hsrc', ?_⟩
          intro s hsnd
          have hsne : s ≠ q.source_path := by
            intro h
            rw [h, hqdone] at hsnd
            exact Bool.noConfusion hsnd
          simp only [List.mem_cons]
          constructor
          · rintro (h | hs)
            · exact absurd h hsne
            · obtain ⟨j, oj, hjk, h2, h3, h4⟩ := (ihproc s hsnd).mp hs
              exact ⟨j, oj, by omega, h2, h3, h4⟩
          · rintro ⟨j, oj, hjk1, hoj, hojsel, hojsrc⟩
            by_cases hjk : j < k
            · exact Or.inr ((ihproc s hsnd).mpr ⟨j, oj, hjk, hoj, hojsel, hojsrc⟩)
            · have : j = k := by omega
              subst this
              rw [ho] at hoj
              obtain rfl := Option.some_inj.mp hoj
              subst hojsrc
              exact Or.inr hprocmem
      · -- the source still carries its original path
        have hqsrcB : q.source_path = o.source_path := by
          rw [hqsrc, if_neg hA]
        have hsrcB : ∀ j oj, pages.get? j = some oj →
            ∃ r, ((assignLoopUpTo name pages k).pages.set k
                { q with assigned_profile := some name, selected := false }).get? j = some r ∧
              r.source_path = (if oj.source_path ∈ (assignLoopUpTo name pages k).renamed
                then doneSourcePath oj.source_path else oj.source_path) := by
          intro j oj hoj
          by_cases hjk : j = k
          · subst hjk
            rw [ho] at hoj
            obtain rfl := Option.some_inj.mp hoj
            refine ⟨_, List.get?_set_eq_of_lt _ (by rw [ihlen]; omega), ?_⟩
            rw [if_neg hA]
            exact hqsrcB
          · obtain ⟨r, hr, hrsrc⟩ := ihsrc j oj hoj
            exact ⟨r, by rw [List.get?_set_ne _ _ (fun h => hjk h.symm)]; exact hr, hrsrc⟩
        by_cases hmem : q.source_path ∈ (assignLoopUpTo name pages k).processedSources
        · -- the source was seen before in this call
          rw [if_pos hmem]
          obtain ⟨j0, o0, hj0, ho0, ho0sel, ho0src⟩ :=
            (ihproc o.source_path hond).mp (by rwa [hqsrcB] at hmem)
          refine ⟨ihnd, ihnames, ?_, hsrcB, ?_⟩
          · intro s
            constructor
            · intro hs
              obtain ⟨i, hik, h2, h3⟩ := (ihchar s).mp hs
              exact ⟨i, by omega, h2, h3⟩
            · rintro ⟨i, hik1, hfirst, hoth⟩
              by_cases hik : i < k
              · exact (ihchar s).mpr ⟨i, hik, hfirst, hoth⟩
              · have hik' : i = k := by omega
                subst hik'
                obtain ⟨-, rfl, hmin⟩ := hfirstk s hfirst
                have := hmin j0 o0 hj0 ho0
                rw [ho0sel, ho0src] at this
                simp at this
          · intro s hsnd
            constructor
            · intro hs
              obtain ⟨j, oj, hjk, h2, h3, h4⟩ := (ihproc s hsnd).mp hs
              exact ⟨j, oj, by omega, h2, h3, h4⟩
            · rintro ⟨j, oj, hjk1, hoj, hojsel, hojsrc⟩
              by_cases hjk : j < k
              · exact (ihproc s hsnd).mpr ⟨j, oj, hjk, hoj, hojsel, hojsrc⟩
              · have hjk' : j = k := by omega
                subst hjk'
                rw [ho] at hoj
                obtain rfl := Option.some_inj.mp hoj
                subst hojsrc
                rwa [hqsrcB] at hmem
        · -- first sight of this source in the call
          rw [if_neg hmem]
          have hnoearly : ∀ j b, j < k → pages.get? j = some b →
              (b.selected && b.source_path == o.source_path) = false := by
            intro j b hj hb
            by_contra hpred
            rw [Bool.not_eq_false, Bool.and_eq_true, beq_iff_eq] at hpred
            exact hmem (by
              rw [hqsrcB]
              exact (ihproc o.source_path hond).mpr ⟨j, b, hj, hb, hpred.1, hpred.2⟩)
          have hfirstS : firstSelectedIdx pages o.source_path = some k :=
            findIdx?_eq_some_of _ pages k o ho (by simp [hos]) hnoearly
          have hnosel : ∀ j oj, j < k → pages.get? j = some oj →
              oj.source_path = o.source_path → oj.selected = false := by
            intro j oj hj hoj hsrcj
            rcases hb : oj.selected with _ | _
            · rfl
            · have hcontra := hnoearly j oj hj hoj
              rw [hb, hsrcj] at hcontra
              simp at hcontra
          have hallEq :
              ((((assignLoopUpTo name pages k).pages.set k
                  { q with assigned_profile := some name, selected := false }).all
                (fun r => !(r.source_path == q.source_path) || r.assigned_profile.isSome)) = true)
              ↔ othersAssigned pages o.source_path k := by
            rw [List.all_eq_true]
            constructor
            · intro hall j oj hoj hjk hsrcj
              obtain ⟨r, hr, hrsrc⟩ := ihsrc j oj hoj
              have hr1 : (((assignLoopUpTo name pages k).pages.set k
                  { q with assigned_profile := some name, selected := false })).get? j
                  = some r := by
                rw [List.get?_set_ne _ _ (fun h => hjk h.symm)]
                exact hr
              have hpred := hall r (List.get?_mem hr1)
              rw [hsrcj, if_neg hA] at hrsrc
              rw [Bool.or_eq_true, Bool.not_eq_true', beq_eq_false_iff_ne] at hpred
              rcases hpred with hne | hassig
              · exact absurd (by rw [hrsrc, hqsrcB] : r.source_path = q.source_path) hne
              · by_cases hjlt : j < k
                · obtain ⟨r2, hr2, -, -, hr2ass⟩ := ihlo j oj hjlt hoj
                  rw [hr] at hr2
                  obtain rfl := Option.some_inj.mp hr2
                  rw [hnosel j oj hjlt hoj hsrcj] at hr2ass
                  simp only [Bool.false_eq_true, if_false] at hr2ass
                  rwa [hr2ass] at hassig
                · obtain ⟨r2, hr2, -, hr2ass, -⟩ := ihhi j oj (by omega) hoj
                  rw [hr] at hr2
                  obtain rfl := Option.some_inj.mp hr2
                  rwa [hr2ass] at hassig
            · intro hoth r hrmem
              obtain ⟨j, hj⟩ := List.mem_iff_get?.mp hrmem
              by_cases hjk : j = k
              · subst hjk
                rw [List.get?_set_eq_of_lt _ (by rw [ihlen]; omega)] at hj
                obtain rfl := Option.some_inj.mp hj
                simp
              · rw [List.get?_set_ne _ _ (fun h => hjk h.symm)] at hj
                have hjlen : j < pages.length := by
                  by_contra hge
                  rw [List.get?_eq_none.mpr (by rw [ihlen]; omega)] at hj
                  exact Option.noConfusion hj
                rcases hoj : pages.get? j with _ | oj
                · rw [List.get?_eq_none] at hoj; omega
                obtain ⟨r2, hr2, hrsrc⟩ := ihsrc j oj hoj
                rw [hj] at hr2
                obtain rfl := Option.some_inj.mp hr2
                by_cases hcase : r.source_path = q.source_path
                · have hojsrc : oj.source_path = o.source_path := by
                    by_cases hrn : oj.source_path ∈ (assignLoopUpTo name pages k).renamed
                    · rw [if_pos hrn] at hrsrc
                      have hd := doneSourcePath_starts_done oj.source_path
                      rw [← hrsrc, hcase, hqsrcB, hond] at hd
                      exact Bool.noConfusion hd
                    · rw [if_neg hrn] at hrsrc
                      rw [← hrsrc, hcase, hqsrcB]
                  have hassig := hoth j oj hoj hjk hojsrc
                  by_cases hjlt : j < k
                  · obtain ⟨r3, hr3, -, -, hr3ass⟩ := ihlo j oj hjlt hoj
                    rw [hj] at hr3
                    obtain rfl := Option.some_inj.mp hr3
                    rw [hnosel j oj hjlt hoj hojsrc] at hr3ass
                    simp only [Bool.false_eq_true, if_false] at hr3ass
                    simp [hr3ass, hassig]
                  · obtain ⟨r3, hr3, -, hr3ass, -⟩ := ihhi j oj (by omega) hoj
                    rw [hj] at hr3
                    obtain rfl := Option.some_inj.mp hr3
                    simp [hr3ass, hassig]
                · simp [hcase]
          have hndq : strStartsWith (pathName q.source_path) "done-" = false := by
            rw [hqsrcB]; exact hond
          by_cases hall : (((assignLoopUpTo name pages k).pages.set k
              { q with assigned_profile := some name, selected := false }).all
              (fun r => !(r.source_path == q.source_path) || r.assigned_profile.isSome)) = true
          · rw [if_pos hall]
            have hmarkeq : mark_source_as_processed
                { assignLoopUpTo name pages k with
                  pages := (assignLoopUpTo name pages k).pages.set k
                    { q with assigned_profile := some name, selected := false },
                  count := (assignLoopUpTo name pages k).count + 1,
                  processedSources := q.source_path :: (assignLoopUpTo name pages k).processedSources }
                q.source_path
              = { pages := ((assignLoopUpTo name pages k).pages.set k
                    { q with assigned_profile := some name, selected := false }).map
                      (fun r => if r.source_path = q.source_path
                        then { r with source_path := doneSourcePath q.source_path } else r),
                  count := (assignLoopUpTo name pages k).count + 1,
                  processedSources := q.source_path :: (assignLoopUpTo name pages k).processedSources,
                  renamed := (assignLoopUpTo name pages k).renamed ++ [q.source_path] } := by
              unfold mark_source_as_processed
              rw [if_neg (by simp [hndq])]
            rw [hmarkeq]
            refine ⟨?_, ?_, ?_, ?_, ?_⟩
            · rw [List.nodup_append]
              refine ⟨ihnd, List.nodup_singleton _, ?_⟩
              intro x hx hx2
              simp only [List.mem_singleton] at hx2
              subst hx2
              exact hA (by rwa [hqsrcB] at hx)
            · intro s hs
              rcases List.mem_append.mp hs with hs | hs
              · exact ihnames s hs
              · simp only [List.mem_singleton] at hs
                subst hs
                exact hndq
            · intro s
              simp only [List.mem_append, List.mem_singleton]
              constructor
              · rintro (hs | rfl)
                · obtain ⟨i, hik, h2, h3⟩ := (ihchar s).mp hs
                  exact ⟨i, by omega, h2, h3⟩
                · refine ⟨k, by omega, ?_, ?_⟩
                  · rw [hqsrcB]; exact hfirstS
                  · rw [hqsrcB]; exact hallEq.mp hall
              · rintro ⟨i, hik1, hfirst, hoth⟩
                by_cases hik : i < k
                · exact Or.inl ((ihchar s).mpr ⟨i, hik, hfirst, hoth⟩)
                · have hik' : i = k := by omega
                  subst hik'
                  obtain ⟨-, rfl, -⟩ := hfirstk s hfirst
                  exact Or.inr hqsrcB.symm
              -- wait direction: s = q.source_path goal; s := o.source_path; hqsrcB : q.src = o.src
            · intro j oj hoj
              by_cases hjk : j = k
              · subst hjk
                rw [ho] at hoj
                obtain rfl := Option.some_inj.mp hoj
                refine ⟨{ q with
                    assigned_profile := some name, selected := false,
                    source_path := doneSourcePath q.source_path }, ?_, ?_⟩
                · rw [List.get?_map, List.get?_set_eq_of_lt _ (by rw [ihlen]; omega),
                    Option.map_some']
                  simp
                · rw [if_pos (List.mem_append_right _ (by simp [hqsrcB]))]
                  show doneSourcePath q.source_path = doneSourcePath o.source_path
                  rw [hqsrcB]
              · obtain ⟨r, hr, hrsrc⟩ := ihsrc j oj hoj
                refine ⟨if r.source_path = q.source_path
                    then { r with source_path := doneSourcePath q.source_path } else r, ?_, ?_⟩
                · rw [List.get?_map, List.get?_set_ne _ _ (fun h => hjk h.symm), hr,
                    Option.map_some']
                · by_cases hrn : oj.source_path ∈ (assignLoopUpTo name pages k).renamed
                  · rw [if_pos hrn] at hrsrc
                    have hdone := doneSourcePath_starts_done oj.source_path
                    have hne : ¬ r.source_path = q.source_path := by
                      intro hcontra
                      rw [hcontra] at hrsrc
                      rw [← hrsrc, hndq] at hdone
                      exact Bool.noConfusion hdone
                    rw [if_neg hne, hrsrc,
                      if_pos (List.mem_append_left _ hrn)]
                  · rw [if_neg hrn] at hrsrc
                    by_cases hsame : oj.source_path = o.source_path
                    · have hre : r.source_path = q.source_path := by
                        rw [hrsrc, hsame, hqsrcB]
                      rw [if_pos hre,
                        if_pos (List.mem_append_right _ (by
                          rw [hsame, ← hqsrcB]
                          exact List.mem_singleton_self _))]
                      show doneSourcePath q.source_path = doneSourcePath oj.source_path
                      rw [hqsrcB, ← hsame]
                    · have hne : ¬ r.source_path = q.source_path := by
                        intro hcontra
                        rw [hrsrc, hqsrcB] at hcontra
                        exact hsame hcontra
                      rw [if_neg hne, hrsrc,
                        if_neg (by
                          simp only [List.mem_append, List.mem_singleton]
                          rintro (hin | heq)
                          · exact hrn hin
                          · rw [hqsrcB] at heq
                            exact hsame heq)]
            · intro s hsnd
              have hq2 : s = q.source_path ∨ s ≠ q.source_path := em _
              simp only [List.mem_cons]
              constructor
              · rintro (rfl | hs)
                · exact ⟨k, o, by omega, ho, hos, hqsrcB.symm⟩
                · obtain ⟨j, oj, hjk, h2, h3, h4⟩ := (ihproc s hsnd).mp hs
                  exact ⟨j, oj, by omega, h2, h3, h4⟩
              · rintro ⟨j, oj, hjk1, hoj, hojsel, hojsrc⟩
                by_cases hjk : j < k
                · exact Or.inr ((ihproc s hsnd).mpr ⟨j, oj, hjk, hoj, hojsel, hojsrc⟩)
                · have hjk' : j = k := by omega
                  subst hjk'
                  rw [ho] at hoj
                  obtain rfl := Option.some_inj.mp hoj
                  subst hojsrc
                  exact Or.inl hqsrcB.symm
          · rw [if_neg hall]
            refine ⟨ihnd, ihnames, ?_, hsrcB, ?_⟩
            · intro s
              constructor
              · intro hs
                obtain ⟨i, hik, h2, h3⟩ := (ihchar s).mp hs
                exact ⟨i, by omega, h2, h3⟩
              · rintro ⟨i, hik1, hfirst, hoth⟩
                by_cases hik : i < k
                · exact (ihchar s).mpr ⟨i, hik, hfirst, hoth⟩
                · have hik' : i = k := by omega
                  subst hik'
                  obtain ⟨-, rfl, -⟩ := hfirstk s hfirst
                  exact absurd (hallEq.mpr hoth) hall
            · intro s hsnd
              simp only [List.mem_cons]
              constructor
              · rintro (rfl | hs)
                · exact ⟨k, o, by omega, ho, hos, hqsrcB.symm⟩
                · obtain ⟨j, oj, hjk, h2, h3, h4⟩ := (ihproc s hsnd).mp hs
                  exact ⟨j, oj, by omega, h2, h3, h4⟩
              · rintro ⟨j, oj, hjk1, hoj, hojsel, hojsrc⟩
                by_cases hjk : j < k
                · exact Or.inr ((ihproc s hsnd).mpr ⟨j, oj, hjk, hoj, hojsel, hojsrc⟩)
                · have hjk' : j = k := by omega
                  subst hjk'
                  rw [ho] at hoj
                  obtain rfl := Option.some_inj.mp hoj
                  subst hojsrc
                  exact Or.inl hqsrcB.symm
    · -- not selected: the step is a no-op
      have hosf : o.selected = false := by
        rcases hbool : o.selected with _ | _
        · rfl
        · exact absurd hbool hos
      rw [hosf] at hqsel
      rw [assignStep_not_selected name _ k q hq hqsel]
      refine ⟨ihnd, ihnames, ?_, ihsrc, ?_⟩
      · intro s
        constructor
        · intro hs
          obtain ⟨i, hik, h2, h3⟩ := (ihchar s).mp hs
          exact ⟨i, by omega, h2, h3⟩
        · rintro ⟨i, hik1, hfirst, hoth⟩
          by_cases hik : i < k
          · exact (ihchar s).mpr ⟨i, hik, hfirst, hoth⟩
          · have hik' : i = k := by omega
            subst hik'
            obtain ⟨hsel', -, -⟩ := hfirstk s hfirst
            rw [hosf] at hsel'
            exact Bool.noConfusion hsel'
      · intro s hsnd
        constructor
        · intro hs
          obtain ⟨j, oj, hjk, h2, h3, h4⟩ := (ihproc s hsnd).mp hs
          exact ⟨j, oj, by omega, h2, h3, h4⟩
        · rintro ⟨j, oj, hjk1, hoj, hojsel, hojsrc⟩
          by_cases hjk : j < k
          · exact (ihproc s hsnd).mpr ⟨j, oj, hjk, hoj, hojsel, hojsrc⟩
          · have hjk' : j = k := by omega
            subst hjk'
            rw [ho] at hoj
            obtain rfl := Option.some_inj.mp hoj
            rw [hosf] at hojsel
            exact Bool.noConfusion hojsel

/-- Two still-unassigned selected pages of one source, assigned in a
single call. -/
def c5PageA : PDFPageData := { source_path := "a.pdf", page_number := 0, selected := true }

def c5PageB : PDFPageData := { source_path := "a.pdf", page_number := 1, selected := true }

/-- C5 counterexample: after a single `assign_profile_to_selected` call
covering both (previously unassigned) pages of source `a.pdf`, every page
originating from that source has a non-null `assigned_profile`, yet the
`done-` rename side effect was not performed during the call — the
completion check for the source ran while assigning its first page,
before the second page of the same source was assigned. -/
theorem assign_source_rename_cex :
    ((assign_profile_to_selected "P" [c5PageA, c5PageB]).pages.all
      (fun q => q.assigned_profile.isSome)) = true ∧
    (assign_profile_to_selected "P" [c5PageA, c5PageB]).renamed = [] := by
  decide

/-- C5 (amended): for sources whose file name does not already start with
`done-`, the source-completion rename is performed during a call of
`assign_profile_to_selected` exactly when the source has a selected page
and every page of the source other than its first selected one already
carries an assigned profile at call time; it is performed at most once per
source per call. In particular a source whose single remaining unassigned
page is assigned in a call is detected as complete on that call, but a
source with two or more still-unassigned pages assigned within one call
is not. -/
theorem assign_source_rename_characterization (name : String) (pages : List PDFPageData)
    (h1 : ∀ o ∈ pages, strStartsWith (pathName o.source_path) "done-" = false) :
    (assign_profile_to_selected name pages).renamed.Nodup ∧
    ∀ s, s ∈ (assign_profile_to_selected name pages).renamed ↔
      (∃ i, firstSelectedIdx pages s = some i ∧ othersAssigned pages s i) := by
  obtain ⟨hnd, -, hchar, -, -⟩ := assignLoop_rename name pages h1 pages.length le_rfl
  refine ⟨hnd, fun s => ?_⟩
  rw [show assign_profile_to_selected name pages = assignLoopUpTo name pages pages.length from rfl,
    hchar s]
  constructor
  · rintro ⟨i, -, h2, h3⟩
    exact ⟨i, h2, h3⟩
  · rintro ⟨i, h2, h3⟩
    refine ⟨i, ?_, h2, h3⟩
    obtain ⟨a, ha, -, -⟩ := findIdx?_eq_some_elim _ pages i h2
    by_contra hge
    rw [List.get?_eq_none.mpr (by omega)] at ha
    exact Option.noConfusion ha

/-- A source whose last unassigned page is assigned in the call: here the
rename does happen. -/
def c5PageC : PDFPageData := { source_path := "a.pdf", page_number := 0, selected := true }

def c5PageD : PDFPageData :=
  { source_path := "a.pdf", page_number := 1, assigned_profile := some "Q" }

theorem assign_source_rename_characterization_witness :
    (∀ o ∈ [c5PageC, c5PageD], strStartsWith (pathName o.source_path) "done-" = false) ∧
    ((assign_profile_to_selected "P" [c5PageC, c5PageD]).renamed.Nodup ∧
      ∀ s, s ∈ (assign_profile_to_selected "P" [c5PageC, c5PageD]).renamed ↔
        (∃ i, firstSelectedIdx [c5PageC, c5PageD] s = some i ∧
          othersAssigned [c5PageC, c5PageD] s i)) :=
  ⟨by decide, assign_source_rename_characterization "P" [c5PageC, c5PageD] (by decide)⟩

end ScannerIndexer
